import Mathlib

/-!
Verification development for the Poly-to-Pro interview-coaching backend
(repository ITI123_Project).

The AI-orchestration core is shallowly embedded here:

* Python strings are lists of Unicode code points (`PyStr := List Nat`);
  Python `str` is a sequence of code points, so this embedding also covers
  lone surrogates, which `String`/`Char` cannot hold.
* `parse_llm_response` embeds the response splitter of
  `app/services/ai_service.py` (search and removal of the
  thinking-tag region, then `str.strip`).
* `extract_clean_json` and `parse_json_safely` embed `app/utils/parsers.py`,
  over an executable model of `json.loads` / `json.dumps` (`parseVal`,
  `serValue`).  JSON numbers are modelled as arbitrary-precision integers:
  float literals, `NaN`/`Infinity` and the recursion limit of the CPython
  parser are outside the model, and `str.strip` is modelled over the ASCII
  whitespace set.
* `run_chain_with_fallback` and `get_static_fallback` embed the failover
  orchestrator of `app/services/ai_service.py`; the outcome of one provider
  attempt (success text or raised exception) is a parameter
  `attempt : Provider → Option PyStr`, the result of `random.shuffle` on the
  tier-1 list is a parameter constrained by `List.Perm`, and the pair
  returned by the embedding carries the list of providers actually invoked.
* `detect_jailbreak` embeds `app/services/guardrails.py`, with the remote
  classifier outcome as a parameter (`none` models a raised exception) and
  the confidence score as a rational number (0.8 and 0.95 are exact).
* `event_generator` and `generate_updates` embed the two streaming
  endpoints of `app/routers/interview.py` and `app/routers/skills.py`; every
  awaited collaborator is an `Except` field of an environment record, so an
  exception raised at any suspension point is a reachable branch.
-/

namespace PolyPro

/-- Python strings, as lists of Unicode code points. -/
abbrev PyStr := List Nat

/-- Embeds a Lean string literal as a list of code points. -/
def pstr (s : String) : PyStr := s.data.map Char.toNat

/-- Whitespace stripped by Python `str.strip()` (ASCII part). -/
def pyWs (c : Nat) : Bool :=
  c = 32 || c = 9 || c = 10 || c = 11 || c = 12 || c = 13

/-- Python `str.strip()`. -/
def pyStrip (s : PyStr) : PyStr :=
  ((s.dropWhile pyWs).reverse.dropWhile pyWs).reverse

/-- Index of the first occurrence of `pat` in `s` (Python `str.find`,
for found case). -/
def findSub (pat : PyStr) : PyStr → Option Nat
  | [] => if pat.isEmpty then some 0 else none
  | c :: t =>
    if pat.isPrefixOf (c :: t) then some 0
    else (findSub pat t).map (· + 1)

/-- Python `pat in s`. -/
def containsSub (pat s : PyStr) : Bool := (findSub pat s).isSome

/-- Index of the first occurrence of code point `c` (Python `str.find`). -/
def findChar (c : Nat) (s : PyStr) : Option Nat := s.findIdx? (· = c)

/-- Index of the last occurrence of code point `c` (Python `str.rfind`). -/
def rfindChar (c : Nat) (s : PyStr) : Option Nat :=
  (s.reverse.findIdx? (· = c)).map (fun i => s.length - 1 - i)

/-- Python slice `s[i : j+1]`. -/
def sliceIncl (s : PyStr) (i j : Nat) : PyStr := (s.drop i).take (j + 1 - i)

/-! ### The markdown-fence stripper

`re.sub(r"```json|```", "", text, flags=re.IGNORECASE)` from
`extract_clean_json`: a left-to-right scan; at each position the
alternative ````json`` (with `json` case-insensitive) is tried first,
then ```` ``` ````. -/

/-- The seven-character prefix test for the case-insensitive ````json``
alternative. -/
def fenceJson : PyStr → Bool
  | a :: b :: c :: d :: e :: f :: g :: _ =>
    a = 96 && b = 96 && c = 96 &&
    (d = 106 || d = 74) && (e = 115 || e = 83) &&
    (f = 111 || f = 79) && (g = 110 || g = 78)
  | _ => false

/-- The three-backtick prefix test. -/
def fencePlain (s : PyStr) : Bool := [96, 96, 96].isPrefixOf s

/-- One fuelled pass of the fence-stripping substitution. -/
def stripFence : Nat → PyStr → PyStr
  | 0, s => s
  | _ + 1, [] => []
  | fuel + 1, c :: t =>
    if fenceJson (c :: t) then stripFence fuel ((c :: t).drop 7)
    else if fencePlain (c :: t) then stripFence fuel ((c :: t).drop 3)
    else c :: stripFence fuel t

/-- The full substitution (`stripFence` with enough fuel to scan `s`). -/
def stripFenceAll (s : PyStr) : PyStr := stripFence s.length s

/-! ### The thinking-tag splitter (`parse_llm_response`)

`re.search(r"<thinking>(.*?)</thinking>", raw_text, re.DOTALL)` finds, at
the first opening tag followed by a closing tag, the shortest delimited
region; `re.sub` with the same pattern removes every such region, always
resuming the scan after the removed match. -/

/-- The opening tag of the reasoning region. -/
def openTag : PyStr := pstr "<thinking>"

/-- The closing tag of the reasoning region. -/
def closeTag : PyStr := pstr "</thinking>"

/-- Splits `s` at the leftmost, shortest tag-delimited region: the part
before the match, the delimited content, and the part after the match. -/
def thinkSplit (s : PyStr) : Option (PyStr × PyStr × PyStr) :=
  match findSub openTag s with
  | none => none
  | some i =>
    let afterOpen := s.drop (i + 10)
    match findSub closeTag afterOpen with
    | none => none
    | some j => some (s.take i, afterOpen.take j, afterOpen.drop (j + 11))

/-- Removal of every tag-delimited region (`re.sub` with empty
replacement); the scan resumes after each removed match. -/
def subThinking : Nat → PyStr → PyStr
  | 0, s => s
  | fuel + 1, s =>
    match thinkSplit s with
    | none => s
    | some (pre, _, post) => pre ++ subThinking fuel post

/-- Embeds `parse_llm_response` (`app/services/ai_service.py`, lines
304-322): returns `(thinking_content, final_answer)`. -/
def parse_llm_response (raw : PyStr) : PyStr × PyStr :=
  match thinkSplit raw with
  | some (_, content, _) =>
    (pyStrip content, pyStrip (subThinking raw.length raw))
  | none => (pstr "No thinking trace provided by AI.", pyStrip raw)

/-! ### JSON values

The JSON model shared by `json.loads` and `json.dumps`.  Objects are
association lists in insertion order (CPython dict order); numbers are
arbitrary-precision integers (floats are outside the model). -/

/-- A Python JSON value. -/
inductive JValue where
  | jnull : JValue
  | jbool : Bool → JValue
  | jint : Int → JValue
  | jstr : PyStr → JValue
  | jarr : List JValue → JValue
  | jobj : List (PyStr × JValue) → JValue

/-! ### The serializer (`json.dumps` with default arguments)

Default separators are `", "` and `": "`; `ensure_ascii=True` escapes
every code point outside `0x20..0x7e` (shortcuts for the two-character
escapes, `\uXXXX` with lowercase hex otherwise, surrogate pairs for
astral code points). -/

/-- Decimal digit characters of `n`, most significant first. -/
def natChars (n : Nat) : PyStr :=
  if n = 0 then [48] else (Nat.digits 10 n).reverse.map (fun d => 48 + d)

/-- Characters of `str(i)` for an integer. -/
def intChars (i : Int) : PyStr :=
  (if i < 0 then [45] else []) ++ natChars i.natAbs

/-- Lowercase hexadecimal digit character of `d < 16`. -/
def hexDigitChar (d : Nat) : Nat := if d < 10 then 48 + d else 87 + d

/-- The four-character lowercase hex rendering used by `\uXXXX` escapes. -/
def hex4 (n : Nat) : PyStr :=
  [hexDigitChar (n / 4096 % 16), hexDigitChar (n / 256 % 16),
   hexDigitChar (n / 16 % 16), hexDigitChar (n % 16)]

/-- The `ensure_ascii` escape of one code point. -/
def escChar (c : Nat) : PyStr :=
  if c = 34 then [92, 34]
  else if c = 92 then [92, 92]
  else if c = 8 then [92, 98]
  else if c = 12 then [92, 102]
  else if c = 10 then [92, 110]
  else if c = 13 then [92, 114]
  else if c = 9 then [92, 116]
  else if 32 ≤ c ∧ c ≤ 126 then [c]
  else if c < 65536 then 92 :: 117 :: hex4 c
  else (92 :: 117 :: hex4 (55296 + (c - 65536) / 1024)) ++
       (92 :: 117 :: hex4 (56320 + (c - 65536) % 1024))

/-- The escaped body of a serialized string. -/
def escStr (s : PyStr) : PyStr := (s.map escChar).flatten

/-- A serialized string with its quotes. -/
def serStr (s : PyStr) : PyStr := 34 :: (escStr s ++ [34])

mutual

/-- `json.dumps` of a value, to code points. -/
def serValue : JValue → PyStr
  | .jnull => pstr "null"
  | .jbool true => pstr "true"
  | .jbool false => pstr "false"
  | .jint i => intChars i
  | .jstr s => serStr s
  | .jarr es => 91 :: (serElems es ++ [93])
  | .jobj ms => 123 :: (serMembers ms ++ [125])

/-- Serialized array elements (without brackets). -/
def serElems : List JValue → PyStr
  | [] => []
  | v :: vs => serValue v ++ serElemSep vs

/-- Trailing array elements, each preceded by the `", "` separator. -/
def serElemSep : List JValue → PyStr
  | [] => []
  | v :: vs => 44 :: 32 :: (serValue v ++ serElemSep vs)

/-- Serialized object members (without braces). -/
def serMembers : List (PyStr × JValue) → PyStr
  | [] => []
  | (k, v) :: ms => serStr k ++ (58 :: 32 :: (serValue v ++ serMemberSep ms))

/-- Trailing object members, each preceded by the `", "` separator. -/
def serMemberSep : List (PyStr × JValue) → PyStr
  | [] => []
  | (k, v) :: ms =>
    44 :: 32 :: (serStr k ++ (58 :: 32 :: (serValue v ++ serMemberSep ms)))

end

/-! ### The parser (`json.loads` with default arguments)

Tokenization whitespace is the JSON set; strings are parsed in strict
mode (raw control characters rejected), `\uXXXX` escapes accept both hex
cases and adjacent high-low escape pairs combine into one astral code
point, unpaired surrogate escapes are kept as lone code points; integer
literals follow the `0 | [1-9][0-9]*` grammar.  Objects are built by
repeated dict insertion: a repeated key keeps its first position and
takes its last value. -/

/-- JSON tokenization whitespace. -/
def jsonWs (c : Nat) : Bool := c = 32 || c = 9 || c = 10 || c = 13

/-- Skips JSON whitespace. -/
def skipWsJ (s : PyStr) : PyStr := s.dropWhile jsonWs

/-- Decimal digit test. -/
def digitB (c : Nat) : Bool := 48 ≤ c && c ≤ 57

/-- Value of one hexadecimal digit character (either case). -/
def hexValN (c : Nat) : Option Nat :=
  if 48 ≤ c ∧ c ≤ 57 then some (c - 48)
  else if 97 ≤ c ∧ c ≤ 102 then some (c - 87)
  else if 65 ≤ c ∧ c ≤ 70 then some (c - 55)
  else none

/-- Reads exactly four hexadecimal digits. -/
def readHex4 : PyStr → Option (Nat × PyStr)
  | a :: b :: c :: d :: r =>
    match hexValN a, hexValN b, hexValN c, hexValN d with
    | some va, some vb, some vc, some vd =>
      some (((va * 16 + vb) * 16 + vc) * 16 + vd, r)
    | _, _, _, _ => none
  | _ => none

/-- Prepends a decoded code point to a string-body parse result. -/
def strCons (c : Nat) : Option (PyStr × PyStr) → Option (PyStr × PyStr)
  | some (out, r) => some (c :: out, r)
  | none => none

/-- After a decoded high surrogate, whether the input continues with a
low-surrogate `\uXXXX` escape (then the pair combines). -/
def lowEscAt (r : PyStr) : Option (Nat × PyStr) :=
  match r with
  | a :: b :: r4 =>
    if a = 92 ∧ b = 117 then
      match readHex4 r4 with
      | some (n2, r5) =>
        if 56320 ≤ n2 ∧ n2 ≤ 57343 then some (n2, r5) else none
      | none => none
    else none
  | _ => none

/-- Parses a string body after the opening quote (strict mode). -/
def parseStrBody : Nat → PyStr → Option (PyStr × PyStr)
  | 0, _ => none
  | fuel + 1, s =>
    match s with
    | [] => none
    | c :: r =>
      if c = 34 then some ([], r)
      else if c = 92 then
        match r with
        | [] => none
        | e :: r2 =>
          if e = 34 ∨ e = 92 ∨ e = 47 then strCons e (parseStrBody fuel r2)
          else if e = 98 then strCons 8 (parseStrBody fuel r2)
          else if e = 102 then strCons 12 (parseStrBody fuel r2)
          else if e = 110 then strCons 10 (parseStrBody fuel r2)
          else if e = 114 then strCons 13 (parseStrBody fuel r2)
          else if e = 116 then strCons 9 (parseStrBody fuel r2)
          else if e = 117 then
            match readHex4 r2 with
            | none => none
            | some (n1, r3) =>
              if 55296 ≤ n1 ∧ n1 ≤ 56319 then
                match lowEscAt r3 with
                | some (n2, r5) =>
                  strCons (65536 + (n1 - 55296) * 1024 + (n2 - 56320))
                    (parseStrBody fuel r5)
                | none => strCons n1 (parseStrBody fuel r3)
              else strCons n1 (parseStrBody fuel r3)
          else none
      else if c < 32 then none
      else strCons c (parseStrBody fuel r)

/-- Numeric value of a big-endian digit-character run. -/
def digitsVal (l : PyStr) : Nat := l.foldl (fun a c => a * 10 + (c - 48)) 0

/-- Parses an unsigned JSON integer (`0 | [1-9][0-9]*`). -/
def parseUInt : PyStr → Option (Nat × PyStr)
  | [] => none
  | c :: r =>
    if c = 48 then some (0, r)
    else if 49 ≤ c ∧ c ≤ 57 then
      some (digitsVal (c :: r.takeWhile digitB), r.dropWhile digitB)
    else none

/-- Parses a JSON integer with optional sign. -/
def parseIntB : PyStr → Option (Int × PyStr)
  | [] => none
  | c :: r =>
    if c = 45 then
      match parseUInt r with
      | some (n, rr) => some (-(n : Int), rr)
      | none => none
    else
      match parseUInt (c :: r) with
      | some (n, rr) => some ((n : Int), rr)
      | none => none

/-- One CPython dict insertion: a present key keeps its position and
takes the new value, a fresh key is appended. -/
def dictInsert (m : List (PyStr × JValue)) (k : PyStr) (v : JValue) :
    List (PyStr × JValue) :=
  if m.any (fun p => p.1 == k) then
    m.map (fun p => if p.1 == k then (k, v) else p)
  else m ++ [(k, v)]

/-- Builds a dict from parsed members in order. -/
def buildDict (ps : List (PyStr × JValue)) : List (PyStr × JValue) :=
  ps.foldl (fun m p => dictInsert m p.1 p.2) []

/-- Matches the fixed remainder of a keyword literal. -/
def expectP (pat s : PyStr) : Option PyStr :=
  if pat.isPrefixOf s then some (s.drop pat.length) else none

mutual

/-- Parses one JSON value; the input starts at the value (no leading
whitespace). -/
def parseVal : Nat → PyStr → Option (JValue × PyStr)
  | 0, _ => none
  | fuel + 1, s =>
    match s with
    | [] => none
    | c :: r =>
      if c = 110 then
        match expectP (pstr "ull") r with
        | some r2 => some (.jnull, r2)
        | none => none
      else if c = 116 then
        match expectP (pstr "rue") r with
        | some r2 => some (.jbool true, r2)
        | none => none
      else if c = 102 then
        match expectP (pstr "alse") r with
        | some r2 => some (.jbool false, r2)
        | none => none
      else if c = 34 then
        match parseStrBody (r.length + 1) r with
        | some (cs, r2) => some (.jstr cs, r2)
        | none => none
      else if c = 91 then
        match skipWsJ r with
        | [] => none
        | c2 :: r2 =>
          if c2 = 93 then some (.jarr [], r2)
          else
            match parseElems fuel (c2 :: r2) with
            | some (es, r3) => some (.jarr es, r3)
            | none => none
      else if c = 123 then
        match skipWsJ r with
        | [] => none
        | c2 :: r2 =>
          if c2 = 125 then some (.jobj [], r2)
          else
            match parseMembs fuel (c2 :: r2) with
            | some (ms, r3) => some (.jobj (buildDict ms), r3)
            | none => none
      else if c = 45 ∨ digitB c then
        match parseIntB (c :: r) with
        | some (i, r2) => some (.jint i, r2)
        | none => none
      else none

/-- Parses one-or-more comma-separated array elements up to `]`. -/
def parseElems : Nat → PyStr → Option (List JValue × PyStr)
  | 0, _ => none
  | fuel + 1, s =>
    match parseVal fuel s with
    | none => none
    | some (v, r) =>
      match skipWsJ r with
      | [] => none
      | c2 :: r2 =>
        if c2 = 44 then
          match parseElems fuel (skipWsJ r2) with
          | some (vs, r3) => some (v :: vs, r3)
          | none => none
        else if c2 = 93 then some ([v], r2)
        else none

/-- Parses one-or-more comma-separated object members up to the closing
brace. -/
def parseMembs : Nat → PyStr → Option (List (PyStr × JValue) × PyStr)
  | 0, _ => none
  | fuel + 1, s =>
    match s with
    | [] => none
    | c :: r =>
      if c = 34 then
        match parseStrBody (r.length + 1) r with
        | none => none
        | some (k, r1) =>
          match skipWsJ r1 with
          | [] => none
          | c2 :: r2 =>
            if c2 = 58 then
              match parseVal fuel (skipWsJ r2) with
              | none => none
              | some (v, r3) =>
                match skipWsJ r3 with
                | [] => none
                | c3 :: r4 =>
                  if c3 = 44 then
                    match parseMembs fuel (skipWsJ r4) with
                    | some (ms, r5) => some ((k, v) :: ms, r5)
                    | none => none
                  else if c3 = 125 then some ([(k, v)], r4)
                  else none
            else none
      else none

end

/-- `json.loads`: whitespace, one value, trailing whitespace only. -/
def loads (s : PyStr) : Option JValue :=
  match parseVal (s.length + 1) (skipWsJ s) with
  | some (v, r) => if (skipWsJ r).isEmpty then some v else none
  | none => none

/-! ### `app/utils/parsers.py` -/

/-- Embeds `extract_clean_json` (`app/utils/parsers.py`, lines 34-60):
strips markdown fences, slices from the first opening brace to the last
closing brace, and parses; `none` models the Python `return None` on a
missing brace or a `json.JSONDecodeError`. -/
def extract_clean_json (text : PyStr) : Option JValue :=
  let t := pyStrip (stripFenceAll text)
  match findChar 123 t, rfindChar 125 t with
  | some i, some j => loads (sliceIncl t i j)
  | _, _ => none

/-- First guardrail-refusal marker recognized by `parse_json_safely`. -/
def refusalMark1 : PyStr := pstr "I cannot process this request"

/-- Second guardrail-refusal marker recognized by `parse_json_safely`. -/
def refusalMark2 : PyStr := pstr "violates our safety"

/-- The default returned by `parse_json_safely` on empty input. -/
def emptyDefault : JValue :=
  .jobj [(pstr "coach_critique", .jstr (pstr "No content generated.")),
         (pstr "score", .jint 0)]

/-- The default returned by `parse_json_safely` on a guardrail refusal. -/
def blockedDefault : JValue :=
  .jobj [(pstr "coach_critique",
          .jstr (pstr "🚫 REQUEST BLOCKED: Your input was flagged by our safety guidelines.")),
         (pstr "rewritten_answer",
          .jstr (pstr "Your input was flagged by our safety guidelines. Please try again with professional language.")),
         (pstr "score", .jint 0),
         (pstr "improvements", .jarr [.jstr (pstr "Please rephrase your request.")]),
         (pstr "matched_skills", .jarr []),
         (pstr "missing_skills", .jarr [])]

/-- The default returned by `parse_json_safely` when parsing truly
failed; it carries the first 500 code points of the raw text. -/
def failedDefault (text : PyStr) : JValue :=
  .jobj [(pstr "coach_critique", .jstr (pstr "System Error: Invalid AI Response")),
         (pstr "rewritten_answer", .jstr (text.take 500)),
         (pstr "score", .jint 0),
         (pstr "improvements", .jarr [.jstr (pstr "System: Please try again.")])]

/-- The region matched by `re.search(r"\x7b.*\x7d", text, re.DOTALL)`:
from the first opening brace having a closing brace after it, greedily to
the last closing brace. -/
def braceSearch (s : PyStr) : Option PyStr :=
  match rfindChar 125 s, findChar 123 s with
  | some j, some i => if i ≤ j then some (sliceIncl s i j) else none
  | _, _ => none

/-- Embeds `parse_json_safely` (`app/utils/parsers.py`, lines 164-204):
total, dictionary-valued on every branch. -/
def parse_json_safely (text : PyStr) : JValue :=
  if text.isEmpty then emptyDefault
  else if containsSub refusalMark1 text || containsSub refusalMark2 text then
    blockedDefault
  else
    match braceSearch text with
    | some sub =>
      match loads sub with
      | some v => v
      | none => failedDefault text
    | none => failedDefault text

/-! ### `app/services/ai_service.py`: static fallback and orchestrator -/

/-- The three LLM providers of the Model Registry. -/
inductive Provider where
  | gemini : Provider
  | openai : Provider
  | groq : Provider
deriving DecidableEq

/-- The Model Registry: which provider clients were initialized at
startup (an absent credential leaves the flag false). -/
structure Registry where
  gemini : Bool
  openai : Bool
  groq : Bool
deriving DecidableEq

/-- Whether a provider is present in the registry. -/
def registered (reg : Registry) : Provider → Bool
  | .gemini => reg.gemini
  | .openai => reg.openai
  | .groq => reg.groq

/-- The tier-1 list built by `run_chain_with_fallback` before the
shuffle: Gemini then OpenAI, each if registered. -/
def tier1 (reg : Registry) : List Provider :=
  (if reg.gemini then [Provider.gemini] else []) ++
  (if reg.openai then [Provider.openai] else [])

/-- The execution plan: the shuffled tier-1 list with Groq appended when
registered.  `shuffled` stands for the result of `random.shuffle` on
`tier1 reg` and is constrained by `List.Perm` in the theorems. -/
def executionOrder (reg : Registry) (shuffled : List Provider) : List Provider :=
  shuffled ++ (if reg.groq then [Provider.groq] else [])

/-- The static dictionary returned for the "Skill Matcher" operation. -/
def skillMatcherFallback : JValue :=
  .jobj [(pstr "matched_skills",
          .jarr [.jobj [(pstr "skill", .jstr (pstr "General Professionalism")),
                        (pstr "code", .jstr (pstr "GEN-PRO-001")),
                        (pstr "reason", .jstr (pstr "Resume detected, but AI deep analysis is currently offline due to high server load."))]]),
         (pstr "missing_skills",
          .jarr [.jobj [(pstr "skill", .jstr (pstr "Technical Deep Dive (System Busy)")),
                        (pstr "code", .jstr (pstr "ERR-503")),
                        (pstr "gap", .jstr (pstr "Our AI analysis servers are currently experiencing very high traffic. Please manually review your specific technical requirements against the job description while we cool down."))]])]

/-- The static dictionary returned for every other operation name
(works for both Manager and Coach parsing). -/
def genericFallback : JValue :=
  .jobj [(pstr "manager_critique",
          .jstr (pstr "⚠️ **System Notification:** High Server Load. We cannot provide specific technical feedback right now.")),
         (pstr "coach_critique",
          .jstr (pstr "Our AI Coach is currently assisting too many users (Capacity Limit Reached). However, a universal tip is to ensure your answer follows the STAR method strictly.")),
         (pstr "rewritten_answer",
          .jstr (pstr "**Situation:** [Your Context] **Task:** [Your Challenge] **Action:** [Specific Steps Taken] **Result:** [Quantifiable Outcome]. \n\n*(Please try again in 5 minutes for a specific rewrite).* "))]

/-- Embeds `get_static_fallback` (`app/services/ai_service.py`, lines
324-360): `json.dumps` of a fixed dictionary keyed on the operation
name; the `inputs` argument is accepted and never read, as in the
source. -/
def get_static_fallback (step_name : PyStr) (inputs : List (PyStr × PyStr)) : PyStr :=
  if step_name = pstr "Skill Matcher" then serValue skillMatcherFallback
  else serValue genericFallback

/-- The failover loop over the execution plan: the first successful
attempt wins; the second component records the providers invoked, in
order. -/
def runPlan (attempt : Provider → Option PyStr) :
    List Provider → Option PyStr × List Provider
  | [] => (none, [])
  | p :: rest =>
    match attempt p with
    | some t => (some t, [p])
    | none =>
      let r := runPlan attempt rest
      (r.1, p :: r.2)

/-- Embeds `run_chain_with_fallback` (`app/services/ai_service.py`,
lines 363-445).  `attempt p` is the outcome of
`execute_and_log(chains[p], p)`: `some text` on success, `none` when the
provider raised (every exception is caught by the loop).  The result
pairs the returned text with the providers invoked; the embedding is
total, modelling that the call never raises to its caller. -/
def run_chain_with_fallback (reg : Registry) (shuffled : List Provider)
    (attempt : Provider → Option PyStr) (inputs : List (PyStr × PyStr))
    (step_name : PyStr) : PyStr × List Provider :=
  let order := executionOrder reg shuffled
  if order.isEmpty then (get_static_fallback step_name inputs, [])
  else
    match runPlan attempt order with
    | (some t, l) => (t, l)
    | (none, l) => (get_static_fallback step_name inputs, l)

/-! ### `app/services/guardrails.py` -/

/-- Embeds `GuardrailService.detect_jailbreak` (lines 10-54).  The
remote classifier outcome is the parameter: `some (is_jailbreak,
confidence_score)` for a reply, `none` for a raised exception (the
fail-open branch).  Confidence is a rational; the source threshold 0.8
and the scenario value 0.95 are exactly representable.  Blocks (returns
`true`) only when `is_jailbreak` holds and the score exceeds 0.8. -/
def detect_jailbreak (classifierResult : Option (Bool × ℚ)) : Bool :=
  match classifierResult with
  | some (isJb, score) => isJb && decide ((4 : ℚ) / 5 < score)
  | none => false

/-! ### The streaming endpoints

Each element of the NDJSON stream is one `Event`; every awaited
collaborator call is an `Except` field of the environment, so that a
branch exists for an exception raised at any suspension point (the
routers wrap the whole generator body in `try ... except` and emit one
`error` event there). -/

/-- One NDJSON stream element. -/
inductive Event where
  | stepEv : Nat → PyStr → Event
  | statusEv : Nat → PyStr → Event
  | updateEv : PyStr → PyStr → Event
  | resultEv : JValue → Event
  | errorEv : PyStr → Event

/-- Terminal events: `result` and `error`. -/
def isTerminal : Event → Bool
  | .resultEv _ => true
  | .errorEv _ => true
  | _ => false

/-- Python truthiness test for the dictionaries handled here: only the
empty dictionary is falsy (`if not coach_data`). -/
def isEmptyDict : JValue → Bool
  | .jobj [] => true
  | _ => false

/-- `dict.get` with a default. -/
def jget (v : JValue) (k : PyStr) (dflt : JValue) : JValue :=
  match v with
  | .jobj m =>
    match m.find? (fun p => p.1 == k) with
    | some p => p.2
    | none => dflt
  | _ => dflt

/-- Environment of `analyze_stream.event_generator`: outcomes of the
four operations that can raise inside the `try` body. -/
structure AnalyzeEnv where
  dbCall : Except PyStr PyStr
  gapsFmt : Except PyStr PyStr
  managerCall : PyStr → PyStr → Except PyStr PyStr
  coachCall : PyStr → Except PyStr PyStr

/-- The replacement dictionary of the `if not coach_data` guard
(`app/routers/interview.py`, lines 79-82). -/
def coachFallbackDict (coachJsonStr : PyStr) : JValue :=
  .jobj [(pstr "coach_critique", .jstr (pstr "Could not parse AI response.")),
         (pstr "rewritten_answer", .jstr coachJsonStr)]

/-- The final `result` payload (`app/routers/interview.py`, lines
85-91). -/
def analyzeResultData (manThinking manFeedback coachThinking : PyStr)
    (coachData : JValue) : JValue :=
  .jobj [(pstr "manager_thinking", .jstr manThinking),
         (pstr "manager_critique", .jstr manFeedback),
         (pstr "coach_thinking", .jstr coachThinking),
         (pstr "coach_critique",
          jget coachData (pstr "coach_critique") (.jstr (pstr "No critique available."))),
         (pstr "rewritten_answer",
          jget coachData (pstr "rewritten_answer") (.jstr (pstr "No answer generated.")))]

/-- Embeds `analyze_stream.event_generator`
(`app/routers/interview.py`, lines 18-95): the emitted stream, one list
element per `yield`; an exception at any awaited point is caught at the
generator boundary and yields exactly one `error` event. -/
def event_generator (env : AnalyzeEnv) : List Event :=
  Event.stepEv 1 (pstr "Gathering Context...") ::
  match env.dbCall with
  | .error e => [Event.errorEv e]
  | .ok skills =>
    match env.gapsFmt with
    | .error e => [Event.errorEv e]
    | .ok gaps =>
      Event.stepEv 1 (pstr "Reading Context...") ::
      Event.stepEv 2 (pstr "Manager Analysis...") ::
      match env.managerCall skills gaps with
      | .error e => [Event.errorEv e]
      | .ok managerRes =>
        let manParsed := parse_llm_response managerRes
        Event.updateEv (pstr "manager_thinking") manParsed.1 ::
        Event.stepEv 3 (pstr "Coach Refinement...") ::
        match env.coachCall manParsed.2 with
        | .error e => [Event.errorEv e]
        | .ok coachRes =>
          let coachParsed := parse_llm_response coachRes
          Event.updateEv (pstr "coach_thinking") coachParsed.1 ::
          let coachData := parse_json_safely coachParsed.2
          let coachData :=
            if isEmptyDict coachData then coachFallbackDict coachParsed.2
            else coachData
          [Event.resultEv
            (analyzeResultData manParsed.1 manParsed.2 coachParsed.1 coachData)]

/-- Environment of `match_skills.generate_updates`: the database rows
call, the PII redactor collaborator, and the orchestrator call. -/
structure SkillsEnv where
  matchData : Except PyStr (List JValue)
  redact : PyStr → PyStr
  aiCall : PyStr → Except PyStr PyStr

/-- The replacement dictionary of the `if not analysis_result` branch
(`app/routers/skills.py`, lines 169-172). -/
def skillsErrorDict : JValue :=
  .jobj [(pstr "matched_skills", .jarr []),
         (pstr "missing_skills",
          .jarr [.jobj [(pstr "skill", .jstr (pstr "Error")),
                        (pstr "code", .jstr (pstr "N/A")),
                        (pstr "gap", .jstr (pstr "AI Analysis failed to parse."))]])]

/-- Embeds `match_skills.generate_updates` (`app/routers/skills.py`,
lines 102-181). -/
def generate_updates (env : SkillsEnv) (resumeText targetRole : PyStr) : List Event :=
  Event.statusEv 1
    (pstr "Querying DB for " ++ 39 :: (targetRole ++ 39 :: pstr "...")) ::
  match env.matchData with
  | .error e => [Event.errorEv e]
  | .ok rows =>
    Event.statusEv 1
      (pstr "✔ Found " ++ natChars rows.length ++ pstr " core competencies.") ::
    Event.statusEv 2 (pstr "Anonymizing data & Initializing AI Analyst...") ::
    let cleanResume := env.redact (resumeText.take 5000)
    Event.statusEv 2 (pstr "Reading resume work history...") ::
    Event.statusEv 2 (pstr "Mapping skills to gaps...") ::
    match env.aiCall (cleanResume.take 5000) with
    | .error e => [Event.errorEv e]
    | .ok aiResponse =>
      Event.statusEv 3 (pstr "Formatting final JSON report...") ::
      let analysisResult :=
        match extract_clean_json aiResponse with
        | some v => if isEmptyDict v then skillsErrorDict else v
        | none => skillsErrorDict
      [Event.resultEv analysisResult]

/-! ### Well-formedness of values

Conditions under which the serializer inverts: real Python code points
(below `0x110000`), no string holding an adjacent high-low surrogate
pair (CPython `json` re-combines such a pair on reparse, so these values
do not round-trip in Python either), and dictionary keys distinct at
every level (automatic for a real `dict`; stated here because the model
uses association lists). -/

/-- A valid Python code point. -/
def validCp (c : Nat) : Bool := c < 1114112

/-- A high (leading) surrogate code point. -/
def isHighSurr (c : Nat) : Bool := 55296 ≤ c && c ≤ 56319

/-- A low (trailing) surrogate code point. -/
def isLowSurr (c : Nat) : Bool := 56320 ≤ c && c ≤ 57343

/-- No adjacent high-low surrogate pair. -/
def noSurrPair : PyStr → Bool
  | a :: b :: t => !(isHighSurr a && isLowSurr b) && noSurrPair (b :: t)
  | _ => true

/-- A string the serializer inverts on. -/
def strOk (s : PyStr) : Bool := s.all validCp && noSurrPair s

/-- The key `k` does not occur in the member list. -/
def keyAbsent (k : PyStr) : List (PyStr × JValue) → Bool
  | [] => true
  | (k2, _) :: ms => !(k2 == k) && keyAbsent k ms

/-- All keys of the member list are distinct. -/
def keysFresh : List (PyStr × JValue) → Bool
  | [] => true
  | (k, _) :: ms => keyAbsent k ms && keysFresh ms

mutual

/-- Well-formed value: valid strings everywhere, distinct keys at every
object level. -/
def wfVal : JValue → Bool
  | .jnull => true
  | .jbool _ => true
  | .jint _ => true
  | .jstr s => strOk s
  | .jarr es => wfElemsB es
  | .jobj ms => keysFresh ms && wfMembsB ms

/-- Well-formedness of array elements. -/
def wfElemsB : List JValue → Bool
  | [] => true
  | v :: vs => wfVal v && wfElemsB vs

/-- Well-formedness of object members. -/
def wfMembsB : List (PyStr × JValue) → Bool
  | [] => true
  | (k, v) :: ms => strOk k && wfVal v && wfMembsB ms

end

/-- The remainder cannot extend a digit run (every JSON separator and
closer qualifies, as does the end of input). -/
def numBoundary : PyStr → Bool
  | [] => true
  | c :: _ => !digitB c

/-- Whether a member list carries the key `k`. -/
def hasKey (m : List (PyStr × JValue)) (k : PyStr) : Bool :=
  m.any (fun p => p.1 == k)

/-- A text containing an opening thinking tag with a closing tag
somewhere after it (the condition under which the regex search of
`parse_llm_response` matches). -/
def hasThinkingPair (s : PyStr) : Prop :=
  ∃ a b c, s = a ++ openTag ++ (b ++ (closeTag ++ c))

/-- A stream ends correctly: exactly one terminal event, and the last
element is terminal. -/
def terminalOk (es : List Event) : Prop :=
  (es.filter isTerminal).length = 1 ∧
  ∃ e, es.getLast? = some e ∧ isTerminal e = true

/-! ## Theorems

First the helper lemmas, then, for each claim of the specification, its
theorem (with witness or counterexample where required). -/

/-- `findSub` soundness: a found index decomposes the string around the
pattern. -/
theorem findSub_some_decomp {pat s : PyStr} {i : Nat}
    (h : findSub pat s = some i) :
    s = s.take i ++ pat ++ s.drop (i + pat.length) := by
  induction s generalizing i with
  | nil =>
    unfold findSub at h
    by_cases hp : pat.isEmpty
    · simp only [hp, if_pos] at h
      obtain rfl : (0 : Nat) = i := Option.some.injEq .. ▸ (by
        simpa using h)
      simp [List.isEmpty_iff.mp hp]
    · simp [hp] at h
  | cons c t ih =>
    unfold findSub at h
    by_cases hp : pat.isPrefixOf (c :: t)
    · simp only [hp, if_pos] at h
      obtain rfl : (0 : Nat) = i := by simpa using h
      obtain ⟨rest, hrest⟩ := (List.isPrefixOf_iff_prefix.mp hp)
      conv_lhs => rw [← hrest]
      simp [← hrest]
    · rw [if_neg hp] at h
      cases hft : findSub pat t with
      | none => rw [hft] at h; simp at h
      | some i' =>
        rw [hft] at h
        simp only [Option.map_some'] at h
        obtain rfl : i' + 1 = i := by simpa using h
        have := ih hft
        calc c :: t
            = c :: (t.take i' ++ pat ++ t.drop (i' + pat.length)) := by rw [← this]
          _ = _ := by simp [List.take_succ_cons, Nat.add_right_comm]

/-- The opening tag has ten code points. -/
theorem openTag_length : openTag.length = 10 := by decide

/-- The closing tag has eleven code points. -/
theorem closeTag_length : closeTag.length = 11 := by decide

/-- `thinkSplit` soundness: a match decomposes the text around one
tag-delimited region. -/
theorem thinkSplit_some_decomp {s pre mid post : PyStr}
    (h : thinkSplit s = some (pre, mid, post)) :
    s = pre ++ openTag ++ (mid ++ (closeTag ++ post)) := by
  unfold thinkSplit at h
  cases ho : findSub openTag s with
  | none => rw [ho] at h; exact absurd h (by simp)
  | some i =>
    rw [ho] at h
    dsimp only at h
    cases hc : findSub closeTag (s.drop (i + 10)) with
    | none => rw [hc] at h; exact absurd h (by simp)
    | some j =>
      rw [hc] at h
      simp only [Option.some.injEq, Prod.mk.injEq] at h
      obtain ⟨rfl, rfl, rfl⟩ := h
      have h1 := findSub_some_decomp ho
      rw [openTag_length] at h1
      have h2 := findSub_some_decomp hc
      rw [closeTag_length] at h2
      conv_lhs => rw [h1]
      conv_lhs => rw [h2]
      simp [List.append_assoc]

/-- Claim C2 (amended): when the raw text holds no tag-delimited
reasoning region, `parse_llm_response` returns the no-trace sentinel and
the stripped raw text, which is non-empty whenever the stripped input
is; when a region is present, the final answer is the text with every
region removed and stripped, which can be empty (no promotion of the
reasoning content happens in the code). -/
theorem c2_split_no_tag_total (raw : PyStr) (h : ¬ hasThinkingPair raw) :
    parse_llm_response raw =
      (pstr "No thinking trace provided by AI.", pyStrip raw) ∧
    (pyStrip raw ≠ [] → (parse_llm_response raw).2 ≠ []) := by
  have hnone : thinkSplit raw = none := by
    cases hts : thinkSplit raw with
    | none => rfl
    | some x =>
      obtain ⟨pre, mid, post⟩ := x
      exact absurd ⟨pre, mid, post, thinkSplit_some_decomp hts⟩ h
  refine ⟨by simp [parse_llm_response, hnone], ?_⟩
  intro hne
  simpa [parse_llm_response, hnone] using hne

/-- Claim C2 witness: a concrete tagless text, with both hypotheses of
the amended theorem discharged. -/
theorem c2_split_no_tag_total_witness :
    parse_llm_response (pstr "Hello coach") =
      (pstr "No thinking trace provided by AI.", pstr "Hello coach") ∧
    (parse_llm_response (pstr "Hello coach")).2 ≠ [] := by
  have hno : ¬ hasThinkingPair (pstr "Hello coach") := by
    rintro ⟨a, b, c, heq⟩
    have hl := congrArg List.length heq
    simp [openTag, closeTag, pstr] at hl
    omega
  have main := c2_split_no_tag_total (pstr "Hello coach") hno
  refine ⟨?_, main.2 (by decide)⟩
  rw [main.1]
  decide

/-- Claim C2 counterexample: a non-empty raw text entirely spanned by
the thinking region gives an empty `final_answer`, the reasoning is not
promoted, and no sentinel note replaces it. -/
theorem c2_full_span_counterexample :
    (pstr "<thinking>abc</thinking>" ≠ ([] : PyStr)) ∧
    (parse_llm_response (pstr "<thinking>abc</thinking>")).2 = [] ∧
    (parse_llm_response (pstr "<thinking>abc</thinking>")).1 = pstr "abc" :=
  ⟨by decide, by decide, by decide⟩

/-- Claim C8: the Static Fallback Generator is a pure, deterministic
function of the operation name: with the same name and any two `inputs`
dictionaries, `get_static_fallback` returns identical text. -/
theorem c8_static_fallback_pure (name : PyStr)
    (i1 i2 : List (PyStr × PyStr)) :
    get_static_fallback name i1 = get_static_fallback name i2 := rfl

/-- Permutations of a two-element list of distinct elements. -/
theorem perm_pair_cases {α : Type} [DecidableEq α] {l : List α} {a b : α}
    (hab : a ≠ b) (h : l.Perm [a, b]) : l = [a, b] ∨ l = [b, a] := by
  have hlen := h.length_eq
  match l, hlen with
  | [x, y], _ =>
    have hx : x ∈ [a, b] := h.mem_iff.mp (by simp)
    have hy : y ∈ [a, b] := h.mem_iff.mp (by simp)
    have hca := h.count_eq a
    have hcb := h.count_eq b
    simp only [List.mem_cons, List.mem_singleton, List.not_mem_nil, or_false] at hx hy
    simp only [List.count_cons, List.count_nil] at hca hcb
    rcases hx with hx | hx <;> rcases hy with hy | hy <;> simp_all

/-- When every provider in the plan fails, the loop exhausts the plan,
invoking each provider. -/
theorem runPlan_all_fail (attempt : Provider → Option PyStr)
    (plan : List Provider) (h : ∀ p ∈ plan, attempt p = none) :
    runPlan attempt plan = (none, plan) := by
  induction plan with
  | nil => rfl
  | cons p rest ih =>
    unfold runPlan
    rw [h p (by simp), ih (fun q hq => h q (by simp [hq]))]

/-- Claim C4: when every configured provider raises (the empty registry
included), `run_chain_with_fallback` returns exactly the Static Fallback
Generator text for the operation name; the embedding is total, so the
call raises nothing to its caller. -/
theorem c4_total_failure_static_fallback
    (reg : Registry) (shuffled : List Provider)
    (attempt : Provider → Option PyStr) (inputs : List (PyStr × PyStr))
    (step_name : PyStr)
    (hsh : shuffled.Perm (tier1 reg))
    (hfail : ∀ p, attempt p = none) :
    (run_chain_with_fallback reg shuffled attempt inputs step_name).1 =
      get_static_fallback step_name inputs := by
  have hrp := runPlan_all_fail attempt (executionOrder reg shuffled)
    (fun p _ => hfail p)
  by_cases he : (executionOrder reg shuffled).isEmpty <;>
    simp [run_chain_with_fallback, he, hrp]

/-- Claim C4 witness: the full registry with every attempt failing. -/
theorem c4_total_failure_static_fallback_witness :
    (run_chain_with_fallback ⟨true, true, true⟩
        [Provider.gemini, Provider.openai] (fun _ => none) []
        (pstr "Coach Agent")).1 =
      get_static_fallback (pstr "Coach Agent") [] :=
  c4_total_failure_static_fallback ⟨true, true, true⟩
    [Provider.gemini, Provider.openai] (fun _ => none) []
    (pstr "Coach Agent") (by decide) (fun _ => rfl)

/-- Claim C5: with tier-1 providers A (failing) and B (succeeding) and
tier-2 Groq configured, the orchestrator returns the output of B and
never invokes Groq, for either shuffle outcome. -/
theorem c5_first_success_wins
    (a b : Provider) (hab : a ≠ b)
    (hag : a ≠ Provider.groq) (hbg : b ≠ Provider.groq)
    (shuffled : List Provider)
    (hsh : shuffled.Perm (tier1 ⟨true, true, true⟩))
    (attempt : Provider → Option PyStr) (out : PyStr)
    (ha : attempt a = none) (hb : attempt b = some out)
    (inputs : List (PyStr × PyStr)) (step_name : PyStr) :
    (run_chain_with_fallback ⟨true, true, true⟩ shuffled attempt inputs
        step_name).1 = out ∧
    Provider.groq ∉
      (run_chain_with_fallback ⟨true, true, true⟩ shuffled attempt inputs
        step_name).2 := by
  have htier : tier1 ⟨true, true, true⟩ = [Provider.gemini, Provider.openai] := rfl
  rw [htier] at hsh
  have hcases := perm_pair_cases (by decide) hsh
  cases a <;> cases b <;>
    first
      | exact absurd rfl hab
      | exact absurd rfl hag
      | exact absurd rfl hbg
      | (rcases hcases with rfl | rfl <;>
          simp [run_chain_with_fallback, executionOrder, runPlan, ha, hb])

/-- Claim C5 witness: Gemini fails, OpenAI succeeds, Groq configured. -/
theorem c5_first_success_wins_witness :
    (run_chain_with_fallback ⟨true, true, true⟩
        [Provider.gemini, Provider.openai]
        (fun p => match p with
          | Provider.openai => some (pstr "B OUTPUT")
          | _ => none)
        [] (pstr "Manager Agent")).1 = pstr "B OUTPUT" ∧
    Provider.groq ∉
      (run_chain_with_fallback ⟨true, true, true⟩
        [Provider.gemini, Provider.openai]
        (fun p => match p with
          | Provider.openai => some (pstr "B OUTPUT")
          | _ => none)
        [] (pstr "Manager Agent")).2 :=
  c5_first_success_wins Provider.gemini Provider.openai
    (by decide) (by decide) (by decide)
    [Provider.gemini, Provider.openai] (by decide) _ (pstr "B OUTPUT")
    rfl rfl [] (pstr "Manager Agent")

/-- Providers of the tier-1 list are registered. -/
theorem mem_tier1_registered {reg : Registry} {p : Provider}
    (h : p ∈ tier1 reg) : registered reg p = true := by
  unfold tier1 at h
  rcases List.mem_append.mp h with h | h <;> split at h <;>
    simp_all [registered]

/-- Claim C6: for every registry and shuffle outcome, the execution plan
holds only registered providers, consists of a permutation of the tier-1
providers followed by Groq appended last when registered, and is empty
exactly when the registry is empty. -/
theorem c6_execution_plan_invariants
    (reg : Registry) (shuffled : List Provider)
    (hsh : shuffled.Perm (tier1 reg)) :
    (∀ p ∈ executionOrder reg shuffled, registered reg p = true) ∧
    (∃ t, t.Perm (tier1 reg) ∧
      executionOrder reg shuffled =
        t ++ (if reg.groq then [Provider.groq] else [])) ∧
    (executionOrder reg shuffled = [] ↔ reg = ⟨false, false, false⟩) := by
  refine ⟨?_, ⟨shuffled, hsh, rfl⟩, ?_, ?_⟩
  · intro p hp
    rcases List.mem_append.mp hp with h | h
    · exact mem_tier1_registered (hsh.mem_iff.mp h)
    · split at h <;> simp_all [registered]
  · intro h
    obtain ⟨hs, hg⟩ := List.append_eq_nil.mp h
    have htier : tier1 reg = [] := (hs ▸ hsh).symm.eq_nil
    obtain ⟨g, o, q⟩ := reg
    cases g <;> cases o <;> cases q <;> simp_all [tier1]
  · rintro rfl
    have : shuffled = [] := hsh.eq_nil
    simp [executionOrder, this]

/-- Claim C6 witness: a registry without OpenAI, with the only tier-1
permutation. -/
theorem c6_execution_plan_invariants_witness :
    (∀ p ∈ executionOrder ⟨true, false, true⟩ [Provider.gemini],
      registered ⟨true, false, true⟩ p = true) ∧
    (∃ t, t.Perm (tier1 ⟨true, false, true⟩) ∧
      executionOrder ⟨true, false, true⟩ [Provider.gemini] =
        t ++ (if (true : Bool) then [Provider.groq] else [])) ∧
    (executionOrder ⟨true, false, true⟩ [Provider.gemini] = [] ↔
      (⟨true, false, true⟩ : Registry) = ⟨false, false, false⟩) :=
  c6_execution_plan_invariants ⟨true, false, true⟩ [Provider.gemini]
    (by decide)

/-- Claim C1 (code bug): the guardrail classifies the scenario input as
a blocked jailbreak (confidence 0.95 is above the 0.8 threshold), yet
`run_chain_with_fallback`, which never consults `detect_jailbreak`,
still invokes the Gemini client and returns the model text instead of
any refusal; no code in the repository snapshot produces the refusal
string that `parse_json_safely` is written to recognize. -/
theorem c1_orchestrator_skips_guardrail :
    detect_jailbreak (some (true, 19 / 20)) = true ∧
    run_chain_with_fallback ⟨true, false, false⟩ [Provider.gemini]
      (fun _ => some (pstr "MODEL OUTPUT")) [] (pstr "Manager Agent") =
      (pstr "MODEL OUTPUT", [Provider.gemini]) := by
  have hq : ((4 : ℚ) / 5 < 19 / 20) := by norm_num
  exact ⟨by simp [detect_jailbreak, hq], rfl⟩

/-- Claim C9: every stream of the two pipelines ends with exactly one
terminal event (`result` or `error`), placed last, for every outcome of
every awaited collaborator, including a raised exception in any state. -/
theorem c9_streams_single_terminal
    (envA : AnalyzeEnv) (envS : SkillsEnv) (resumeText targetRole : PyStr) :
    terminalOk (event_generator envA) ∧
    terminalOk (generate_updates envS resumeText targetRole) := by
  constructor
  · obtain ⟨db, gaps, mCall, cCall⟩ := envA
    cases db with
    | error e => simp [event_generator, terminalOk, isTerminal]
    | ok skills =>
      cases gaps with
      | error e => simp [event_generator, terminalOk, isTerminal]
      | ok g =>
        cases hm : mCall skills g with
        | error e => simp [event_generator, terminalOk, isTerminal, hm]
        | ok mres =>
          cases hc : cCall (parse_llm_response mres).2 with
          | error e => simp [event_generator, terminalOk, isTerminal, hm, hc]
          | ok cres => simp [event_generator, terminalOk, isTerminal, hm, hc]
  · obtain ⟨md, red, ai⟩ := envS
    cases md with
    | error e => simp [generate_updates, terminalOk, isTerminal]
    | ok rows =>
      cases hai : ai ((red (resumeText.take 5000)).take 5000) with
      | error e => simp [generate_updates, terminalOk, isTerminal, hai]
      | ok resp => simp [generate_updates, terminalOk, isTerminal, hai]

/-! ### Round trip of the JSON codec: digit runs -/

/-- Every code point of `natChars n` is a decimal digit. -/
theorem natChars_all_digits (n : Nat) : ∀ c ∈ natChars n, digitB c = true := by
  intro c hc
  unfold natChars at hc
  split at hc
  · simp only [List.mem_singleton] at hc
    subst hc; rfl
  · simp only [List.mem_map, List.mem_reverse] at hc
    obtain ⟨d, hd, rfl⟩ := hc
    have := Nat.digits_lt_base (by norm_num) hd
    simp only [digitB, Bool.and_eq_true, decide_eq_true_eq]
    omega

/-- Folding a digit list appended with one digit character. -/
theorem digitsVal_append_single (A : PyStr) (c : Nat) :
    digitsVal (A ++ [c]) = digitsVal A * 10 + (c - 48) := by
  simp [digitsVal, List.foldl_append]

/-- `digitsVal` inverts the mapped reversed digit expansion. -/
theorem digitsVal_reverse_map (L : List Nat) :
    digitsVal (L.reverse.map (fun d => 48 + d)) = Nat.ofDigits 10 L := by
  induction L with
  | nil => rfl
  | cons d t ih =>
    rw [List.reverse_cons, List.map_append]
    simp only [List.map_cons, List.map_nil]
    rw [digitsVal_append_single, ih, Nat.ofDigits_cons]
    omega

/-- `digitsVal` inverts `natChars`. -/
theorem digitsVal_natChars (n : Nat) : digitsVal (natChars n) = n := by
  unfold natChars
  split
  · rename_i hn0
    simp [digitsVal, hn0]
  · rw [digitsVal_reverse_map, Nat.ofDigits_digits]

/-- The head of `natChars n`: a digit, and nonzero when `n` is. -/
theorem natChars_head (n : Nat) :
    ∃ c t, natChars n = c :: t ∧ 48 ≤ c ∧ c ≤ 57 ∧ (n ≠ 0 → 49 ≤ c) := by
  unfold natChars
  split
  · exact ⟨48, [], rfl, by omega, by omega, by simp_all⟩
  · rename_i hn
    have hne : Nat.digits 10 n ≠ [] := Nat.digits_ne_nil_iff_ne_zero.mpr hn
    have hrev_ne : (Nat.digits 10 n).reverse ≠ [] := by simpa using hne
    obtain ⟨d, L, hdl⟩ := List.exists_cons_of_ne_nil hrev_ne
    have hmem : d ∈ Nat.digits 10 n := by
      rw [← List.mem_reverse, hdl]; simp
    have hlt : d < 10 := Nat.digits_lt_base (by norm_num) hmem
    have hdz : d ≠ 0 := by
      have hlast : (Nat.digits 10 n).getLast hne ≠ 0 :=
        Nat.getLast_digit_ne_zero 10 hn
      have hh : (Nat.digits 10 n).reverse.head? =
          some ((Nat.digits 10 n).getLast hne) := by
        rw [List.head?_reverse]
        exact List.getLast?_eq_getLast _ hne
      rw [hdl] at hh
      simp only [List.head?_cons, Option.some.injEq] at hh
      rw [hh]
      exact hlast
    refine ⟨48 + d, L.map (fun x => 48 + x), ?_, by omega, by omega,
      fun _ => by omega⟩
    rw [hdl]
    simp

/-- `takeWhile` and `dropWhile` split a satisfying run at a failing
boundary. -/
theorem takeWhile_dropWhile_append {p : Nat → Bool} {l rest : PyStr}
    (hl : ∀ c ∈ l, p c = true)
    (hrest : ∀ c, rest.head? = some c → p c = false) :
    (l ++ rest).takeWhile p = l ∧ (l ++ rest).dropWhile p = rest := by
  induction l with
  | nil =>
    cases rest with
    | nil => simp
    | cons c t =>
      have := hrest c rfl
      simp [List.takeWhile_cons, List.dropWhile_cons, this]
  | cons a l' ih =>
    have ha := hl a (by simp)
    have hl' : ∀ c ∈ l', p c = true := fun c hc => hl c (by simp [hc])
    obtain ⟨h1, h2⟩ := ih hl'
    simp [List.takeWhile_cons, List.dropWhile_cons, ha, h1, h2]

/-- `parseUInt` inverts `natChars` at a digit boundary. -/
theorem parseUInt_natChars (n : Nat) (rest : PyStr)
    (hrest : numBoundary rest = true) :
    parseUInt (natChars n ++ rest) = some (n, rest) := by
  obtain ⟨c, t, hct, hc48, hc57, hcnz⟩ := natChars_head n
  have hboundary : ∀ c2, rest.head? = some c2 → digitB c2 = false := by
    intro c2 hc2
    cases rest with
    | nil => simp at hc2
    | cons r rs =>
      simp only [List.head?_cons, Option.some.injEq] at hc2
      subst hc2
      simpa [numBoundary] using hrest
  by_cases hn : n = 0
  · subst hn
    have : natChars 0 = [48] := rfl
    rw [this]
    simp [parseUInt]
  · have hc49 := hcnz hn
    have halld : ∀ d ∈ t, digitB d = true := by
      intro d hd
      exact natChars_all_digits n d (by rw [hct]; simp [hd])
    obtain ⟨htw, hdw⟩ := takeWhile_dropWhile_append halld hboundary
    rw [hct]
    simp only [List.cons_append, parseUInt]
    rw [if_neg (by omega), if_pos (by omega), htw, hdw]
    have : digitsVal (c :: t) = n := by
      rw [← hct, digitsVal_natChars]
    rw [this]

/-- `parseIntB` inverts `intChars` at a digit boundary. -/
theorem parseIntB_intChars (i : Int) (rest : PyStr)
    (hrest : numBoundary rest = true) :
    parseIntB (intChars i ++ rest) = some (i, rest) := by
  by_cases hi : i < 0
  · have hch : intChars i = 45 :: natChars i.natAbs := by simp [intChars, hi]
    rw [hch]
    simp [parseIntB, parseUInt_natChars i.natAbs rest hrest]
    rw [abs_of_neg hi]
    ring
  · obtain ⟨c, t, hct, hc48, hc57, _⟩ := natChars_head i.natAbs
    have hch : intChars i = natChars i.natAbs := by simp [intChars, hi]
    have habs : ((i.natAbs : Nat) : Int) = i := by omega
    rw [hch, hct]
    simp only [List.cons_append, parseIntB]
    rw [if_neg (by omega : ¬ c = 45), ← List.cons_append, ← hct,
      parseUInt_natChars i.natAbs rest hrest]
    simp [habs]

/-! ### Round trip of the JSON codec: hexadecimal escapes -/

/-- `hexValN` inverts the hex digit character. -/
theorem hexValN_hexDigitChar (d : Nat) (h : d < 16) :
    hexValN (hexDigitChar d) = some d := by
  interval_cases d <;> rfl

/-- `readHex4` inverts `hex4` below `0x10000`. -/
theorem readHex4_hex4 (n : Nat) (h : n < 65536) (rest : PyStr) :
    readHex4 (hex4 n ++ rest) = some (n, rest) := by
  have h1 := hexValN_hexDigitChar (n / 4096 % 16) (Nat.mod_lt _ (by norm_num))
  have h2 := hexValN_hexDigitChar (n / 256 % 16) (Nat.mod_lt _ (by norm_num))
  have h3 := hexValN_hexDigitChar (n / 16 % 16) (Nat.mod_lt _ (by norm_num))
  have h4 := hexValN_hexDigitChar (n % 16) (Nat.mod_lt _ (by norm_num))
  show readHex4
    (hexDigitChar (n / 4096 % 16) :: hexDigitChar (n / 256 % 16) ::
     hexDigitChar (n / 16 % 16) :: hexDigitChar (n % 16) :: rest) = _
  simp only [readHex4, h1, h2, h3, h4, Option.some.injEq, Prod.mk.injEq]
  exact ⟨by omega, trivial⟩

/-! ### Round trip of the JSON codec: string escapes -/

/-- `escChar` on a plain printable character. -/
theorem escChar_lit {c : Nat} (h1 : 32 ≤ c) (h2 : c ≤ 126)
    (h3 : c ≠ 34) (h4 : c ≠ 92) : escChar c = [c] := by
  unfold escChar
  rw [if_neg h3, if_neg h4, if_neg (by omega), if_neg (by omega),
    if_neg (by omega), if_neg (by omega), if_neg (by omega),
    if_pos ⟨h1, h2⟩]

/-- `escChar` on a character needing one `\uXXXX` escape. -/
theorem escChar_bmp {c : Nat}
    (h3 : c ≠ 34) (h4 : c ≠ 92) (h5 : c ≠ 8) (h6 : c ≠ 12) (h7 : c ≠ 10)
    (h8 : c ≠ 13) (h9 : c ≠ 9) (hnl : ¬(32 ≤ c ∧ c ≤ 126))
    (hlt : c < 65536) : escChar c = 92 :: 117 :: hex4 c := by
  unfold escChar
  rw [if_neg h3, if_neg h4, if_neg h5, if_neg h6, if_neg h7, if_neg h8,
    if_neg h9, if_neg hnl, if_pos hlt]

/-- `escChar` on an astral character: the surrogate pair escape. -/
theorem escChar_astral {c : Nat} (h1 : 65536 ≤ c) :
    escChar c = (92 :: 117 :: hex4 (55296 + (c - 65536) / 1024)) ++
      (92 :: 117 :: hex4 (56320 + (c - 65536) % 1024)) := by
  have e3 : c ≠ 34 := by omega
  have e4 : c ≠ 92 := by omega
  have e5 : c ≠ 8 := by omega
  have e6 : c ≠ 12 := by omega
  have e7 : c ≠ 10 := by omega
  have e8 : c ≠ 13 := by omega
  have e9 : c ≠ 9 := by omega
  have enl : ¬(32 ≤ c ∧ c ≤ 126) := by omega
  have elt : ¬c < 65536 := by omega
  unfold escChar
  rw [if_neg e3, if_neg e4, if_neg e5, if_neg e6, if_neg e7, if_neg e8,
    if_neg e9, if_neg enl, if_neg elt]

/-- `escStr` distributes over cons. -/
theorem escStr_cons (c : Nat) (s : PyStr) :
    escStr (c :: s) = escChar c ++ escStr s := by
  simp [escStr]

/-- Every escape produces at least one character. -/
theorem escChar_length_pos (c : Nat) : 1 ≤ (escChar c).length := by
  unfold escChar
  split_ifs <;> simp [hex4]

/-- The escaped body is at least as long as the string. -/
theorem escStr_length_ge (s : PyStr) : s.length ≤ (escStr s).length := by
  induction s with
  | nil => simp [escStr]
  | cons c t ih =>
    rw [escStr_cons]
    have := escChar_length_pos c
    simp only [List.length_cons, List.length_append]
    omega

/-- Components of string well-formedness at a cons. -/
theorem strOk_cons {c : Nat} {s : PyStr} (h : strOk (c :: s) = true) :
    validCp c = true ∧ strOk s = true ∧
    (∀ c2, s.head? = some c2 → (isHighSurr c && isLowSurr c2) = false) := by
  cases s with
  | nil =>
    simp only [strOk, noSurrPair, List.all_cons, List.all_nil,
      Bool.and_true, Bool.and_eq_true] at h
    exact ⟨h, rfl, fun c2 hc2 => by simp at hc2⟩
  | cons c2 t =>
    simp only [strOk, noSurrPair, List.all_cons, Bool.and_eq_true,
      Bool.not_eq_true'] at h
    obtain ⟨⟨hc, hc2, ht⟩, hpair, hrest⟩ := h
    refine ⟨hc, ?_, ?_⟩
    · simp only [strOk, List.all_cons, Bool.and_eq_true]
      exact ⟨⟨hc2, ht⟩, hrest⟩
    · intro c3 hc3
      simp only [List.head?_cons, Option.some.injEq] at hc3
      subst hc3
      exact hpair


/-- `lowEscAt` on an input not starting with a `\u`. -/
theorem lowEscAt_not_u {a b : Nat} (X : PyStr) (h : ¬(a = 92 ∧ b = 117)) :
    lowEscAt (a :: b :: X) = none := by
  simp only [lowEscAt]
  rw [if_neg h]

/-- `lowEscAt` on an input not starting with a backslash. -/
theorem lowEscAt_head_ne {a : Nat} (h : ¬ a = 92) (X : PyStr) :
    lowEscAt (a :: X) = none := by
  cases X with
  | nil => rfl
  | cons b t => exact lowEscAt_not_u t (by tauto)

/-- `lowEscAt` on a `\u` escape start. -/
theorem lowEscAt_u (X : PyStr) :
    lowEscAt (92 :: 117 :: X) =
      match readHex4 X with
      | some (n2, r5) =>
        if 56320 ≤ n2 ∧ n2 ≤ 57343 then some (n2, r5) else none
      | none => none := by
  simp [lowEscAt]

/-- One step of the string-body parser at the closing quote. -/
theorem psb_quote (f : Nat) (r : PyStr) :
    parseStrBody (f + 1) (34 :: r) = some ([], r) := by
  simp [parseStrBody]

/-- One step of the string-body parser at a shortcut escape. -/
theorem psb_esc_direct (f e : Nat) (r2 : PyStr)
    (he : e = 34 ∨ e = 92 ∨ e = 47) :
    parseStrBody (f + 1) (92 :: e :: r2) = strCons e (parseStrBody f r2) := by
  simp [parseStrBody, he]

/-- One step of the string-body parser at a named control escape. -/
theorem psb_esc_ctl (f e d : Nat) (r2 : PyStr)
    (hed : (e = 98 ∧ d = 8) ∨ (e = 102 ∧ d = 12) ∨ (e = 110 ∧ d = 10) ∨
      (e = 114 ∧ d = 13) ∨ (e = 116 ∧ d = 9)) :
    parseStrBody (f + 1) (92 :: e :: r2) = strCons d (parseStrBody f r2) := by
  rcases hed with ⟨rfl, rfl⟩ | ⟨rfl, rfl⟩ | ⟨rfl, rfl⟩ | ⟨rfl, rfl⟩ | ⟨rfl, rfl⟩ <;>
    simp [parseStrBody]

/-- One step of the string-body parser at a `\u` escape. -/
theorem psb_u (f : Nat) (r2 : PyStr) :
    parseStrBody (f + 1) (92 :: 117 :: r2) =
      match readHex4 r2 with
      | none => none
      | some (n1, r3) =>
        if 55296 ≤ n1 ∧ n1 ≤ 56319 then
          match lowEscAt r3 with
          | some (n2, r5) =>
            strCons (65536 + (n1 - 55296) * 1024 + (n2 - 56320))
              (parseStrBody f r5)
          | none => strCons n1 (parseStrBody f r3)
        else strCons n1 (parseStrBody f r3) := by
  simp [parseStrBody]

/-- One step of the string-body parser at a literal character. -/
theorem psb_lit (f c : Nat) (r : PyStr) (h1 : ¬ c = 34) (h2 : ¬ c = 92)
    (h3 : ¬ c < 32) :
    parseStrBody (f + 1) (c :: r) = strCons c (parseStrBody f r) := by
  simp only [parseStrBody]
  rw [if_neg h1, if_neg h2, if_neg h3]

/-- After a lone high surrogate, the remaining escaped text never reads
back as a low-surrogate escape (given the next source character is not a
low surrogate). -/
theorem lowEscAt_escStr (s' rest : PyStr)
    (hs : ∀ c2, s'.head? = some c2 →
      isLowSurr c2 = false ∧ validCp c2 = true) :
    lowEscAt (escStr s' ++ (34 :: rest)) = none := by
  cases s' with
  | nil =>
    show lowEscAt (34 :: rest) = none
    exact lowEscAt_head_ne (by omega) rest
  | cons c2 s'' =>
    obtain ⟨hlow, hval⟩ := hs c2 rfl
    have hlow' : ¬(56320 ≤ c2 ∧ c2 ≤ 57343) := by
      rintro ⟨ha, hb⟩
      rw [show isLowSurr c2 = true by simp [isLowSurr]; omega] at hlow
      exact absurd hlow (by simp)
    have hval' : c2 < 1114112 := by simpa [validCp] using hval
    rw [escStr_cons, List.append_assoc]
    by_cases h34 : c2 = 34
    · subst h34
      show lowEscAt (92 :: 34 :: _) = none
      exact lowEscAt_not_u _ (by omega)
    · by_cases h92 : c2 = 92
      · subst h92
        show lowEscAt (92 :: 92 :: _) = none
        exact lowEscAt_not_u _ (by omega)
      · by_cases h8 : c2 = 8
        · subst h8
          show lowEscAt (92 :: 98 :: _) = none
          exact lowEscAt_not_u _ (by omega)
        · by_cases h12 : c2 = 12
          · subst h12
            show lowEscAt (92 :: 102 :: _) = none
            exact lowEscAt_not_u _ (by omega)
          · by_cases h10 : c2 = 10
            · subst h10
              show lowEscAt (92 :: 110 :: _) = none
              exact lowEscAt_not_u _ (by omega)
            · by_cases h13 : c2 = 13
              · subst h13
                show lowEscAt (92 :: 114 :: _) = none
                exact lowEscAt_not_u _ (by omega)
              · by_cases h9 : c2 = 9
                · subst h9
                  show lowEscAt (92 :: 116 :: _) = none
                  exact lowEscAt_not_u _ (by omega)
                · by_cases hlit : 32 ≤ c2 ∧ c2 ≤ 126
                  · rw [escChar_lit hlit.1 hlit.2 h34 h92,
                      List.singleton_append]
                    exact lowEscAt_head_ne h92 _
                  · by_cases hbmp : c2 < 65536
                    · rw [escChar_bmp h34 h92 h8 h12 h10 h13 h9 hlit hbmp]
                      rw [List.cons_append, List.cons_append, lowEscAt_u,
                        readHex4_hex4 c2 hbmp]
                      dsimp only
                      rw [if_neg hlow']
                    · have h65 : 65536 ≤ c2 := by omega
                      rw [escChar_astral h65]
                      rw [List.append_assoc, List.cons_append,
                        List.cons_append, lowEscAt_u,
                        readHex4_hex4 _ (by omega)]
                      dsimp only
                      rw [if_neg (by omega)]

/-- The string-body parser combines an adjacent high-low pair of
`\uXXXX` escapes into one astral code point. -/
theorem psb_u_pair (f hi lo : Nat) (X : PyStr)
    (hhi : 55296 ≤ hi ∧ hi ≤ 56319) (hlo : 56320 ≤ lo ∧ lo ≤ 57343)
    (hhi16 : hi < 65536) (hlo16 : lo < 65536) :
    parseStrBody (f + 1)
      (92 :: 117 :: (hex4 hi ++ (92 :: 117 :: (hex4 lo ++ X)))) =
      strCons (65536 + (hi - 55296) * 1024 + (lo - 56320))
        (parseStrBody f X) := by
  rw [psb_u, readHex4_hex4 hi hhi16]
  dsimp only
  rw [if_pos hhi, lowEscAt_u, readHex4_hex4 lo hlo16]
  dsimp only
  rw [if_pos hlo]

/-- The string-body parser decodes a non-high-surrogate `\uXXXX` escape
without peeking ahead. -/
theorem psb_u_nothigh (f n1 : Nat) (X : PyStr)
    (h16 : n1 < 65536) (hnh : ¬(55296 ≤ n1 ∧ n1 ≤ 56319)) :
    parseStrBody (f + 1) (92 :: 117 :: (hex4 n1 ++ X)) =
      strCons n1 (parseStrBody f X) := by
  rw [psb_u, readHex4_hex4 n1 h16]
  dsimp only
  rw [if_neg hnh]

/-- The string-body parser keeps a lone high-surrogate `\uXXXX` escape
when the following text reads back as no low-surrogate escape. -/
theorem psb_u_highlone (f n1 : Nat) (X : PyStr)
    (h16 : n1 < 65536) (hh : 55296 ≤ n1 ∧ n1 ≤ 56319)
    (hlow : lowEscAt X = none) :
    parseStrBody (f + 1) (92 :: 117 :: (hex4 n1 ++ X)) =
      strCons n1 (parseStrBody f X) := by
  rw [psb_u, readHex4_hex4 n1 h16]
  dsimp only
  rw [if_pos hh, hlow]

/-- The string-body parser inverts the serializer escape on well-formed
strings. -/
theorem parseStrBody_escStr (s : PyStr) : ∀ (fuel : Nat) (rest : PyStr),
    strOk s = true → s.length < fuel →
    parseStrBody fuel (escStr s ++ (34 :: rest)) = some (s, rest) := by
  induction s with
  | nil =>
    intro fuel rest _ hf
    obtain ⟨f, rfl⟩ : ∃ f, fuel = f + 1 := ⟨fuel - 1, by omega⟩
    show parseStrBody (f + 1) ((escStr []) ++ (34 :: rest)) = _
    rw [show escStr [] = [] from rfl, List.nil_append, psb_quote]
  | cons c s' ih =>
    intro fuel rest hok hf
    obtain ⟨f, rfl⟩ : ∃ f, fuel = f + 1 := ⟨fuel - 1, by omega⟩
    obtain ⟨hval, hok', hpair⟩ := strOk_cons hok
    have hf' : s'.length < f := by
      simp only [List.length_cons] at hf; omega
    have ihf := ih f rest hok' hf'
    rw [escStr_cons, List.append_assoc]
    by_cases h34 : c = 34
    · subst h34
      rw [show escChar 34 = [92, 34] from rfl, List.cons_append,
        List.cons_append, List.nil_append,
        psb_esc_direct f 34 _ (by omega), ihf]
      rfl
    · by_cases h92 : c = 92
      · subst h92
        rw [show escChar 92 = [92, 92] from rfl, List.cons_append,
          List.cons_append, List.nil_append,
          psb_esc_direct f 92 _ (by omega), ihf]
        rfl
      · by_cases h8 : c = 8
        · subst h8
          rw [show escChar 8 = [92, 98] from rfl, List.cons_append,
            List.cons_append, List.nil_append,
            psb_esc_ctl f 98 8 _ (by omega), ihf]
          rfl
        · by_cases h12 : c = 12
          · subst h12
            rw [show escChar 12 = [92, 102] from rfl, List.cons_append,
              List.cons_append, List.nil_append,
              psb_esc_ctl f 102 12 _ (by omega), ihf]
            rfl
          · by_cases h10 : c = 10
            · subst h10
              rw [show escChar 10 = [92, 110] from rfl, List.cons_append,
                List.cons_append, List.nil_append,
                psb_esc_ctl f 110 10 _ (by omega), ihf]
              rfl
            · by_cases h13 : c = 13
              · subst h13
                rw [show escChar 13 = [92, 114] from rfl, List.cons_append,
                  List.cons_append, List.nil_append,
                  psb_esc_ctl f 114 13 _ (by omega), ihf]
                rfl
              · by_cases h9 : c = 9
                · subst h9
                  rw [show escChar 9 = [92, 116] from rfl, List.cons_append,
                    List.cons_append, List.nil_append,
                    psb_esc_ctl f 116 9 _ (by omega), ihf]
                  rfl
                · by_cases hlit : 32 ≤ c ∧ c ≤ 126
                  · rw [escChar_lit hlit.1 hlit.2 h34 h92,
                      List.singleton_append,
                      psb_lit f c _ h34 h92 (by omega), ihf]
                    rfl
                  · by_cases hbmp : c < 65536
                    · rw [escChar_bmp h34 h92 h8 h12 h10 h13 h9 hlit hbmp,
                        List.cons_append, List.cons_append]
                      by_cases hhigh : 55296 ≤ c ∧ c ≤ 56319
                      · have hlowesc :
                            lowEscAt (escStr s' ++ (34 :: rest)) = none := by
                          refine lowEscAt_escStr s' rest ?_
                          intro c2 hc2
                          refine ⟨?_, ?_⟩
                          · have hp := hpair c2 hc2
                            rw [show isHighSurr c = true by
                              simp [isHighSurr]; omega] at hp
                            simpa using hp
                          · cases s' with
                            | nil => simp at hc2
                            | cons a t =>
                              simp only [List.head?_cons,
                                Option.some.injEq] at hc2
                              subst hc2
                              exact (strOk_cons hok').1
                        rw [psb_u_highlone f c _ hbmp hhigh hlowesc, ihf]
                        rfl
                      · rw [psb_u_nothigh f c _ hbmp hhigh, ihf]
                        rfl
                    · have h65 : 65536 ≤ c := by omega
                      have hvc : c < 1114112 := by
                        simpa [validCp] using hval
                      rw [escChar_astral h65]
                      simp only [List.cons_append, List.append_assoc]
                      rw [psb_u_pair f _ _ _ (by constructor <;> omega)
                        (by constructor <;> omega) (by omega) (by omega),
                        ihf]
                      simp [strCons]
                      omega

/-! ### Round trip of the JSON codec: value parser steps -/

/-- `serValue` on null, spelled out. -/
theorem serValue_null : serValue JValue.jnull = [110, 117, 108, 108] := by
  decide

/-- `serValue` on true, spelled out. -/
theorem serValue_true : serValue (JValue.jbool true) = [116, 114, 117, 101] := by
  decide

/-- `serValue` on false, spelled out. -/
theorem serValue_false :
    serValue (JValue.jbool false) = [102, 97, 108, 115, 101] := by
  decide

/-- One parser step on the `null` keyword. -/
theorem pv_null (f : Nat) (rest : PyStr) :
    parseVal (f + 1) (110 :: 117 :: 108 :: 108 :: rest) =
      some (JValue.jnull, rest) := by
  have h : pstr "ull" = [117, 108, 108] := by decide
  simp [parseVal, expectP, h, List.isPrefixOf]

/-- One parser step on the `true` keyword. -/
theorem pv_true (f : Nat) (rest : PyStr) :
    parseVal (f + 1) (116 :: 114 :: 117 :: 101 :: rest) =
      some (JValue.jbool true, rest) := by
  have h : pstr "rue" = [114, 117, 101] := by decide
  simp [parseVal, expectP, h, List.isPrefixOf]

/-- One parser step on the `false` keyword. -/
theorem pv_false (f : Nat) (rest : PyStr) :
    parseVal (f + 1) (102 :: 97 :: 108 :: 115 :: 101 :: rest) =
      some (JValue.jbool false, rest) := by
  have h : pstr "alse" = [97, 108, 115, 101] := by decide
  simp [parseVal, expectP, h, List.isPrefixOf]

/-- One parser step at an opening quote. -/
theorem pv_str (f : Nat) (r : PyStr) :
    parseVal (f + 1) (34 :: r) =
      (match parseStrBody (r.length + 1) r with
       | some (cs, r2) => some (JValue.jstr cs, r2)
       | none => none) := by
  simp [parseVal]

/-- One parser step at an empty array. -/
theorem pv_arr_empty (f : Nat) (r r2 : PyStr)
    (h : skipWsJ r = 93 :: r2) :
    parseVal (f + 1) (91 :: r) = some (JValue.jarr [], r2) := by
  simp [parseVal, h]

/-- One parser step at a non-empty array. -/
theorem pv_arr_cons (f : Nat) (r : PyStr) (c2 : Nat) (r2 : PyStr)
    (h : skipWsJ r = c2 :: r2) (h93 : ¬ c2 = 93) :
    parseVal (f + 1) (91 :: r) =
      (match parseElems f (c2 :: r2) with
       | some (es, r3) => some (JValue.jarr es, r3)
       | none => none) := by
  simp [parseVal, h, h93]

/-- One parser step at an empty object. -/
theorem pv_obj_empty (f : Nat) (r r2 : PyStr)
    (h : skipWsJ r = 125 :: r2) :
    parseVal (f + 1) (123 :: r) = some (JValue.jobj [], r2) := by
  simp [parseVal, h]

/-- One parser step at a non-empty object. -/
theorem pv_obj_cons (f : Nat) (r : PyStr) (c2 : Nat) (r2 : PyStr)
    (h : skipWsJ r = c2 :: r2) (h125 : ¬ c2 = 125) :
    parseVal (f + 1) (123 :: r) =
      (match parseMembs f (c2 :: r2) with
       | some (ms, r3) => some (JValue.jobj (buildDict ms), r3)
       | none => none) := by
  simp [parseVal, h, h125]

/-- One parser step at a number start. -/
theorem pv_num (f : Nat) (c : Nat) (r : PyStr)
    (hc : c = 45 ∨ digitB c = true)
    (h110 : ¬ c = 110) (h116 : ¬ c = 116) (h102 : ¬ c = 102)
    (h34 : ¬ c = 34) (h91 : ¬ c = 91) (h123 : ¬ c = 123) :
    parseVal (f + 1) (c :: r) =
      (match parseIntB (c :: r) with
       | some (i, r2) => some (JValue.jint i, r2)
       | none => none) := by
  simp only [parseVal]
  rw [if_neg h110, if_neg h116, if_neg h102, if_neg h34, if_neg h91,
    if_neg h123, if_pos hc]

/-! ### Round trip of the JSON codec: serializer head and whitespace -/

/-- The head of `intChars`: a sign or digit, distinct from every
structural lead character. -/
theorem intChars_head (i : Int) :
    ∃ c t, intChars i = c :: t ∧ (c = 45 ∨ digitB c = true) ∧
      jsonWs c = false ∧ c ≠ 110 ∧ c ≠ 116 ∧ c ≠ 102 ∧ c ≠ 34 ∧
      c ≠ 91 ∧ c ≠ 123 ∧ c ≠ 93 ∧ c ≠ 125 ∧ c ≠ 44 := by
  by_cases hi : i < 0
  · refine ⟨45, natChars i.natAbs, by simp [intChars, hi], Or.inl rfl, ?_⟩
    refine ⟨rfl, ?_⟩
    omega
  · obtain ⟨c, t, hct, h48, h57, _⟩ := natChars_head i.natAbs
    refine ⟨c, t, by simp [intChars, hi, hct], Or.inr (by
      simp [digitB]; omega), ?_, ?_⟩
    · simp [jsonWs]; omega
    · omega

/-- The head of a serialized value: never whitespace, never a closer or
separator. -/
theorem serValue_head (v : JValue) :
    ∃ c t, serValue v = c :: t ∧ jsonWs c = false ∧ c ≠ 93 ∧ c ≠ 125 ∧
      c ≠ 44 := by
  cases v with
  | jnull => exact ⟨110, _, serValue_null, by decide, by decide, by decide, by decide⟩
  | jbool b =>
    cases b with
    | true => exact ⟨116, _, serValue_true, by decide, by decide, by decide, by decide⟩
    | false => exact ⟨102, _, serValue_false, by decide, by decide, by decide, by decide⟩
  | jint i =>
    obtain ⟨c, t, hct, _, hws, _, _, _, _, _, _, h93, h125, h44⟩ := intChars_head i
    exact ⟨c, t, hct, hws, h93, h125, h44⟩
  | jstr s =>
    exact ⟨34, _, rfl, by decide, by decide, by decide, by decide⟩
  | jarr es =>
    cases es <;> exact ⟨91, _, rfl, by decide, by decide, by decide, by decide⟩
  | jobj ms =>
    cases ms <;> exact ⟨123, _, rfl, by decide, by decide, by decide, by decide⟩

/-- A serialized value is nonempty. -/
theorem serValue_length_pos (v : JValue) : 1 ≤ (serValue v).length := by
  obtain ⟨c, t, hct, _, _, _, _⟩ := serValue_head v
  rw [hct]
  simp

/-- Whitespace skipping is the identity in front of a serialized
value. -/
theorem skipWsJ_serValue (v : JValue) (x : PyStr) :
    skipWsJ (serValue v ++ x) = serValue v ++ x := by
  obtain ⟨c, t, hct, hws, _, _, _⟩ := serValue_head v
  rw [hct, List.cons_append]
  simp [skipWsJ, hws]

/-! ### Round trip of the JSON codec: dictionary insertion -/

/-- An absent key defeats the membership scan. -/
theorem keyAbsent_not_any (k : PyStr) (m : List (PyStr × JValue))
    (h : keyAbsent k m = true) : m.any (fun p => p.1 == k) = false := by
  induction m with
  | nil => rfl
  | cons p t ih =>
    obtain ⟨k2, v2⟩ := p
    simp only [keyAbsent, Bool.and_eq_true, Bool.not_eq_true'] at h
    simp [List.any_cons, h.1, ih h.2]

/-- Inserting a fresh key appends. -/
theorem dictInsert_absent (m : List (PyStr × JValue)) (k : PyStr)
    (v : JValue) (h : keyAbsent k m = true) :
    dictInsert m k v = m ++ [(k, v)] := by
  unfold dictInsert
  rw [keyAbsent_not_any k m h]
  simp

/-- `keyAbsent` distributes over append. -/
theorem keyAbsent_append (k : PyStr) (a b : List (PyStr × JValue)) :
    keyAbsent k (a ++ b) = (keyAbsent k a && keyAbsent k b) := by
  induction a with
  | nil => simp [keyAbsent]
  | cons p t ih =>
    obtain ⟨k2, v2⟩ := p
    simp [keyAbsent, ih, Bool.and_assoc]

/-- An absent key differs from every member key. -/
theorem keyAbsent_mem {k : PyStr} {m : List (PyStr × JValue)}
    (h : keyAbsent k m = true) {p : PyStr × JValue} (hp : p ∈ m) :
    (p.1 == k) = false := by
  induction m with
  | nil => simp at hp
  | cons q t ih =>
    obtain ⟨k2, v2⟩ := q
    simp only [keyAbsent, Bool.and_eq_true, Bool.not_eq_true'] at h
    rcases List.mem_cons.mp hp with rfl | hp2
    · exact h.1
    · exact ih h.2 hp2

/-- Folding fresh-key insertions over a dictionary appends it whole. -/
theorem buildDict_go (ms : List (PyStr × JValue)) :
    ∀ acc, keysFresh ms = true →
    (∀ p ∈ ms, keyAbsent p.1 acc = true) →
    List.foldl (fun m p => dictInsert m p.1 p.2) acc ms = acc ++ ms := by
  induction ms with
  | nil => intro acc _ _; simp
  | cons q t ih =>
    intro acc hfresh habs
    obtain ⟨k, v⟩ := q
    simp only [keysFresh, Bool.and_eq_true] at hfresh
    rw [List.foldl_cons]
    rw [show dictInsert acc k v = acc ++ [(k, v)] from
      dictInsert_absent acc k v (habs (k, v) (by simp))]
    rw [ih (acc ++ [(k, v)]) hfresh.2 ?absent]
    · simp
    case absent =>
      intro p hp
      rw [keyAbsent_append]
      have h1 := habs p (by simp [hp])
      have h2 : (p.1 == k) = false := keyAbsent_mem hfresh.1 hp
      have h2' : (k == p.1) = false := by
        simp only [beq_eq_false_iff_ne, ne_eq] at h2 ⊢
        exact fun he => h2 he.symm
      simp [h1, keyAbsent, h2']

/-- A fresh-keyed member list passes through `buildDict` unchanged. -/
theorem buildDict_id (ms : List (PyStr × JValue))
    (h : keysFresh ms = true) : buildDict ms = ms := by
  unfold buildDict
  rw [buildDict_go ms [] h (fun p _ => rfl)]
  simp

mutual

/-- Round trip of one serialized value, in any non-digit right
context. -/
theorem rt_val : ∀ (v : JValue) (fuel : Nat) (rest : PyStr),
    wfVal v = true → (serValue v).length < fuel → numBoundary rest = true →
    parseVal fuel (serValue v ++ rest) = some (v, rest)
  | .jnull, fuel, rest, _, hf, _ => by
    obtain ⟨f, rfl⟩ : ∃ f, fuel = f + 1 := ⟨fuel - 1, by omega⟩
    rw [serValue_null]
    simp only [List.cons_append, List.nil_append]
    exact pv_null f rest
  | .jbool true, fuel, rest, _, hf, _ => by
    obtain ⟨f, rfl⟩ : ∃ f, fuel = f + 1 := ⟨fuel - 1, by omega⟩
    rw [serValue_true]
    simp only [List.cons_append, List.nil_append]
    exact pv_true f rest
  | .jbool false, fuel, rest, _, hf, _ => by
    obtain ⟨f, rfl⟩ : ∃ f, fuel = f + 1 := ⟨fuel - 1, by omega⟩
    rw [serValue_false]
    simp only [List.cons_append, List.nil_append]
    exact pv_false f rest
  | .jint i, fuel, rest, _, hf, hrest => by
    obtain ⟨f, rfl⟩ : ∃ f, fuel = f + 1 := ⟨fuel - 1, by omega⟩
    obtain ⟨c, t, hct, hc, _, h110, h116, h102, h34, h91, h123, _, _, _⟩ :=
      intChars_head i
    rw [show serValue (JValue.jint i) = intChars i from by simp [serValue]]
    rw [hct, List.cons_append,
      pv_num f c _ hc h110 h116 h102 h34 h91 h123,
      ← List.cons_append, ← hct, parseIntB_intChars i rest hrest]
  | .jstr s, fuel, rest, hwf, hf, _ => by
    obtain ⟨f, rfl⟩ : ∃ f, fuel = f + 1 := ⟨fuel - 1, by omega⟩
    have hser : serValue (JValue.jstr s) = 34 :: (escStr s ++ [34]) := by
      simp [serValue, serStr]
    rw [hser, List.cons_append, List.append_assoc,
      List.singleton_append, pv_str]
    have hok : strOk s = true := by simpa [wfVal] using hwf
    have hlen : s.length < (escStr s ++ (34 :: rest)).length + 1 := by
      have := escStr_length_ge s
      simp only [List.length_append]
      omega
    rw [parseStrBody_escStr s _ rest hok hlen]
  | .jarr [], fuel, rest, _, hf, _ => by
    obtain ⟨f, rfl⟩ : ∃ f, fuel = f + 1 := ⟨fuel - 1, by omega⟩
    have hser : serValue (JValue.jarr []) = [91, 93] := by
      simp [serValue, serElems]
    rw [hser]
    simp only [List.cons_append, List.nil_append]
    exact pv_arr_empty f (93 :: rest) rest (by simp [skipWsJ, jsonWs])
  | .jarr (v :: vs), fuel, rest, hwf, hf, _ => by
    obtain ⟨f, rfl⟩ : ∃ f, fuel = f + 1 := ⟨fuel - 1, by omega⟩
    have hwfe : wfElemsB (v :: vs) = true := by simpa [wfVal] using hwf
    have hser : serValue (JValue.jarr (v :: vs)) =
        91 :: (serElems (v :: vs) ++ [93]) := by simp [serValue]
    have hfe : (serElems (v :: vs)).length + 1 < f := by
      rw [hser] at hf
      simp only [List.length_cons, List.length_append,
        List.length_singleton] at hf
      omega
    obtain ⟨c, t, hct, hws, hc93, _, _⟩ := serValue_head v
    have hselems : serElems (v :: vs) = serValue v ++ serElemSep vs := by
      simp [serElems]
    have hshape : serElems (v :: vs) ++ (93 :: rest) =
        c :: (t ++ (serElemSep vs ++ (93 :: rest))) := by
      rw [hselems, hct]
      simp
    have hskip : skipWsJ (serElems (v :: vs) ++ (93 :: rest)) =
        c :: (t ++ (serElemSep vs ++ (93 :: rest))) := by
      rw [hshape]
      simp [skipWsJ, hws]
    rw [hser, List.cons_append, List.append_assoc, List.singleton_append,
      pv_arr_cons f _ c _ hskip hc93, ← hshape,
      rt_elems v vs f rest hwfe hfe]
  | .jobj [], fuel, rest, _, hf, _ => by
    obtain ⟨f, rfl⟩ : ∃ f, fuel = f + 1 := ⟨fuel - 1, by omega⟩
    have hser : serValue (JValue.jobj []) = [123, 125] := by
      simp [serValue, serMembers]
    rw [hser]
    simp only [List.cons_append, List.nil_append]
    exact pv_obj_empty f (125 :: rest) rest (by simp [skipWsJ, jsonWs])
  | .jobj ((k, v) :: ms), fuel, rest, hwf, hf, _ => by
    obtain ⟨f, rfl⟩ : ∃ f, fuel = f + 1 := ⟨fuel - 1, by omega⟩
    have hwf' : keysFresh ((k, v) :: ms) = true ∧
        wfMembsB ((k, v) :: ms) = true := by
      have := hwf
      simp only [wfVal, Bool.and_eq_true] at this
      exact this
    have hser : serValue (JValue.jobj ((k, v) :: ms)) =
        123 :: (serMembers ((k, v) :: ms) ++ [125]) := by simp [serValue]
    have hfm : (serMembers ((k, v) :: ms)).length + 1 < f := by
      rw [hser] at hf
      simp only [List.length_cons, List.length_append,
        List.length_singleton] at hf
      omega
    have hsm : serMembers ((k, v) :: ms) =
        34 :: (escStr k ++ (34 :: (58 :: 32 ::
          (serValue v ++ serMemberSep ms)))) := by
      simp [serMembers, serStr]
    have hshape : serMembers ((k, v) :: ms) ++ (125 :: rest) =
        34 :: (escStr k ++ (34 :: (58 :: 32 ::
          (serValue v ++ (serMemberSep ms ++ (125 :: rest)))))) := by
      rw [hsm]
      simp
    have hskip : skipWsJ (serMembers ((k, v) :: ms) ++ (125 :: rest)) =
        34 :: (escStr k ++ (34 :: (58 :: 32 ::
          (serValue v ++ (serMemberSep ms ++ (125 :: rest)))))) := by
      rw [hshape]
      simp [skipWsJ, jsonWs]
    rw [hser, List.cons_append, List.append_assoc, List.singleton_append,
      pv_obj_cons f _ 34 _ (by rw [hskip]) (by omega), ← hshape]
    rw [rt_membs (k, v) ms f rest hwf'.2 hfm]
    dsimp only
    rw [buildDict_id _ hwf'.1]
  termination_by v _ _ => sizeOf v

/-- Round trip of serialized array elements up to the closing
bracket. -/
theorem rt_elems : ∀ (v : JValue) (vs : List JValue) (fuel : Nat)
    (rest : PyStr), wfElemsB (v :: vs) = true →
    (serElems (v :: vs)).length + 1 < fuel →
    parseElems fuel (serElems (v :: vs) ++ (93 :: rest)) =
      some (v :: vs, rest)
  | v, [], fuel, rest, hwf, hf => by
    obtain ⟨f, rfl⟩ : ∃ f, fuel = f + 1 := ⟨fuel - 1, by omega⟩
    have hwfv : wfVal v = true := by
      simpa [wfElemsB] using hwf
    have hse : serElems [v] = serValue v := by
      simp [serElems, serElemSep]
    have hfv : (serValue v).length < f := by
      rw [hse] at hf
      omega
    simp only [parseElems]
    rw [hse, rt_val v f (93 :: rest) hwfv hfv (by rfl)]
    simp [skipWsJ, jsonWs]
  | v, x :: xs, fuel, rest, hwf, hf => by
    obtain ⟨f, rfl⟩ : ∃ f, fuel = f + 1 := ⟨fuel - 1, by omega⟩
    have hwfv : wfVal v = true ∧ wfElemsB (x :: xs) = true := by
      simpa [wfElemsB, Bool.and_eq_true] using hwf
    have hse : serElems (v :: x :: xs) =
        serValue v ++ (44 :: 32 :: serElems (x :: xs)) := by
      simp [serElems, serElemSep]
    have hlen : (serValue v).length < f ∧
        (serElems (x :: xs)).length + 1 < f := by
      rw [hse] at hf
      simp only [List.length_append, List.length_cons] at hf
      constructor <;> omega
    simp only [parseElems]
    rw [hse, List.append_assoc]
    rw [rt_val v f _ hwfv.1 hlen.1 (by rfl)]
    dsimp only
    rw [show skipWsJ ((44 : Nat) :: 32 :: serElems (x :: xs) ++ (93 :: rest)) =
      (44 : Nat) :: (32 :: serElems (x :: xs) ++ (93 :: rest)) from by
        simp [skipWsJ, jsonWs]]
    dsimp only
    rw [if_pos rfl]
    obtain ⟨c, t, hct, hws, _, _, _⟩ := serValue_head x
    have hshape2 : (32 : Nat) :: serElems (x :: xs) ++ (93 :: rest) =
        32 :: (serElems (x :: xs) ++ (93 :: rest)) := by simp
    have hskip2 : skipWsJ ((32 : Nat) :: serElems (x :: xs) ++ (93 :: rest)) =
        serElems (x :: xs) ++ (93 :: rest) := by
      rw [hshape2]
      rw [show skipWsJ ((32 : Nat) :: (serElems (x :: xs) ++ (93 :: rest))) =
        skipWsJ (serElems (x :: xs) ++ (93 :: rest)) from by
          simp [skipWsJ, jsonWs]]
      rw [show serElems (x :: xs) = serValue x ++ serElemSep xs from by
        simp [serElems]]
      rw [List.append_assoc]
      exact skipWsJ_serValue x _
    rw [hskip2, rt_elems x xs f rest hwfv.2 hlen.2]
  termination_by v vs _ _ => sizeOf v + sizeOf vs

/-- Round trip of serialized object members up to the closing brace. -/
theorem rt_membs : ∀ (kv : PyStr × JValue) (ms : List (PyStr × JValue))
    (fuel : Nat) (rest : PyStr), wfMembsB (kv :: ms) = true →
    (serMembers (kv :: ms)).length + 1 < fuel →
    parseMembs fuel (serMembers (kv :: ms) ++ (125 :: rest)) =
      some (kv :: ms, rest)
  | (k, v), [], fuel, rest, hwf, hf => by
    obtain ⟨f, rfl⟩ : ∃ f, fuel = f + 1 := ⟨fuel - 1, by omega⟩
    have hwf3 : strOk k = true ∧ wfVal v = true := by
      simpa [wfMembsB, Bool.and_eq_true] using hwf
    have hsm : serMembers [(k, v)] =
        34 :: (escStr k ++ (34 :: (58 :: 32 ::
          (serValue v ++ serMemberSep [])))) := by
      simp [serMembers, serStr]
    have hlens : k.length < (escStr k ++ (34 :: (58 :: 32 ::
        (serValue v ++ (serMemberSep [] ++ (125 :: rest)))))).length + 1 := by
      have := escStr_length_ge k
      simp only [List.length_append, List.length_cons]
      omega
    have hflen : (serValue v).length < f := by
      rw [hsm] at hf
      simp only [List.length_cons, List.length_append] at hf
      omega
    rw [hsm]
    simp only [List.cons_append, List.append_assoc]
    simp only [parseMembs]
    rw [if_pos trivial]
    rw [parseStrBody_escStr k _ _ hwf3.1 hlens]
    dsimp only
    rw [show skipWsJ ((58 : Nat) :: 32 ::
        (serValue v ++ (serMemberSep [] ++ (125 :: rest)))) =
      (58 : Nat) :: (32 ::
        (serValue v ++ (serMemberSep [] ++ (125 :: rest)))) from by
        simp [skipWsJ, jsonWs]]
    dsimp only
    rw [if_pos rfl]
    rw [show skipWsJ ((32 : Nat) ::
        (serValue v ++ (serMemberSep [] ++ (125 :: rest)))) =
      serValue v ++ (serMemberSep [] ++ (125 :: rest)) from by
        rw [show skipWsJ ((32 : Nat) ::
          (serValue v ++ (serMemberSep [] ++ (125 :: rest)))) =
          skipWsJ (serValue v ++ (serMemberSep [] ++ (125 :: rest))) from by
            simp [skipWsJ, jsonWs]]
        exact skipWsJ_serValue v _]
    rw [rt_val v f _ hwf3.2 hflen (by rfl)]
    dsimp only
    rw [show serMemberSep ([] : List (PyStr × JValue)) = [] from rfl,
      List.nil_append]
    rw [show skipWsJ ((125 : Nat) :: rest) = 125 :: rest from by
      simp [skipWsJ, jsonWs]]
    simp
  | (k, v), (k2, v2) :: ms2, fuel, rest, hwf, hf => by
    obtain ⟨f, rfl⟩ : ∃ f, fuel = f + 1 := ⟨fuel - 1, by omega⟩
    have hwf3 : strOk k = true ∧ wfVal v = true ∧
        wfMembsB ((k2, v2) :: ms2) = true := by
      simpa [wfMembsB, Bool.and_eq_true, and_assoc] using hwf
    have hsm : serMembers ((k, v) :: (k2, v2) :: ms2) =
        34 :: (escStr k ++ (34 :: (58 :: 32 ::
          (serValue v ++ serMemberSep ((k2, v2) :: ms2))))) := by
      simp [serMembers, serStr]
    have hlens : k.length < (escStr k ++ (34 :: (58 :: 32 :: (serValue v ++
        (serMemberSep ((k2, v2) :: ms2) ++ (125 :: rest)))))).length + 1 := by
      have := escStr_length_ge k
      simp only [List.length_append, List.length_cons]
      omega
    have hflen : (serValue v).length < f ∧
        (serMemberSep ((k2, v2) :: ms2)).length < f := by
      rw [hsm] at hf
      simp only [List.length_cons, List.length_append] at hf
      constructor <;> omega
    rw [hsm]
    simp only [List.cons_append, List.append_assoc]
    simp only [parseMembs]
    rw [if_pos trivial]
    rw [parseStrBody_escStr k _ _ hwf3.1 hlens]
    dsimp only
    rw [show skipWsJ ((58 : Nat) :: 32 :: (serValue v ++
        (serMemberSep ((k2, v2) :: ms2) ++ (125 :: rest)))) =
      (58 : Nat) :: (32 :: (serValue v ++
        (serMemberSep ((k2, v2) :: ms2) ++ (125 :: rest)))) from by
        simp [skipWsJ, jsonWs]]
    dsimp only
    rw [if_pos rfl]
    rw [show skipWsJ ((32 : Nat) :: (serValue v ++
        (serMemberSep ((k2, v2) :: ms2) ++ (125 :: rest)))) =
      serValue v ++ (serMemberSep ((k2, v2) :: ms2) ++ (125 :: rest)) from by
        rw [show skipWsJ ((32 : Nat) :: (serValue v ++
          (serMemberSep ((k2, v2) :: ms2) ++ (125 :: rest)))) =
          skipWsJ (serValue v ++
            (serMemberSep ((k2, v2) :: ms2) ++ (125 :: rest))) from by
            simp [skipWsJ, jsonWs]]
        exact skipWsJ_serValue v _]
    rw [rt_val v f _ hwf3.2.1 hflen.1 (by rfl)]
    dsimp only
    have hwftail : wfMembsB ((k2, v2) :: ms2) = true := hwf3.2.2
    have hsep : serMemberSep ((k2, v2) :: ms2) =
        44 :: 32 :: serMembers ((k2, v2) :: ms2) := by
      simp [serMemberSep, serMembers]
    have hflen2 : (serMembers ((k2, v2) :: ms2)).length + 1 < f := by
      rw [hsep] at hflen
      have := hflen.2
      simp only [List.length_cons] at this
      omega
    rw [hsep]
    rw [show ((44 : Nat) :: 32 :: serMembers ((k2, v2) :: ms2)) ++
        (125 :: rest) =
      (44 : Nat) :: (32 :: (serMembers ((k2, v2) :: ms2) ++
        (125 :: rest))) from by simp]
    rw [show skipWsJ ((44 : Nat) :: (32 ::
        (serMembers ((k2, v2) :: ms2) ++ (125 :: rest)))) =
      (44 : Nat) :: (32 :: (serMembers ((k2, v2) :: ms2) ++
        (125 :: rest))) from by simp [skipWsJ, jsonWs]]
    dsimp only
    rw [if_pos rfl]
    rw [show skipWsJ ((32 : Nat) ::
        (serMembers ((k2, v2) :: ms2) ++ (125 :: rest))) =
      skipWsJ (serMembers ((k2, v2) :: ms2) ++ (125 :: rest)) from by
        simp [skipWsJ, jsonWs]]
    rw [show skipWsJ (serMembers ((k2, v2) :: ms2) ++ (125 :: rest)) =
      serMembers ((k2, v2) :: ms2) ++ (125 :: rest) from by
        rw [show serMembers ((k2, v2) :: ms2) =
          34 :: (escStr k2 ++ (34 :: (58 :: 32 ::
            (serValue v2 ++ serMemberSep ms2)))) from by
            simp [serMembers, serStr]]
        simp [skipWsJ, jsonWs]]
    rw [rt_membs (k2, v2) ms2 f rest hwftail hflen2]
  termination_by kv ms _ _ => sizeOf kv + sizeOf ms

end

/-- Serializing a well-formed value and reading it back with
`json.loads` restores the value. -/
theorem loads_serValue (v : JValue) (hwf : wfVal v = true) :
    loads (serValue v) = some v := by
  have h := rt_val v ((serValue v).length + 1) [] hwf (by omega) rfl
  rw [List.append_nil] at h
  unfold loads
  rw [show skipWsJ (serValue v) = serValue v from by
    have h2 := skipWsJ_serValue v []
    simpa using h2]
  rw [h]
  rfl

/-- A successful `findIdx?` for a code point locates it in the list. -/
theorem findChar_drop (c : Nat) : ∀ (s : PyStr) (i : Nat),
    findChar c s = some i → ∃ u, s.drop i = c :: u
  | [], i, h => by simp [findChar] at h
  | a :: t, i, h => by
    simp only [findChar, List.findIdx?_cons] at h
    by_cases ha : a = c
    · rw [if_pos (by simp [ha])] at h
      injection h with h
      subst h
      exact ⟨t, by simp [ha]⟩
    · rw [if_neg (by simp [ha]), List.findIdx?_succ] at h
      cases hf : t.findIdx? (fun x => x = c) with
      | none => rw [hf] at h; simp at h
      | some i0 =>
        rw [hf] at h
        simp only [Option.map_some'] at h
        obtain rfl : i0 + 1 = i := by injection h
        obtain ⟨u, hu⟩ := findChar_drop c t i0 (by simp only [findChar]; exact hf)
        exact ⟨u, by simpa using hu⟩

/-- `str.rfind` of the last character of a string. -/
theorem rfindChar_append_last (c : Nat) (L : PyStr) :
    rfindChar c (L ++ [c]) = some L.length := by
  unfold rfindChar
  rw [List.reverse_append]
  simp only [List.reverse_cons, List.reverse_nil, List.nil_append,
    List.singleton_append, List.findIdx?_cons]
  rw [if_pos (by simp)]
  simp only [Option.map_some']
  congr 1
  simp

/-- `str.find` at the head. -/
theorem findChar_cons_self (c : Nat) (t : PyStr) :
    findChar c (c :: t) = some 0 := by
  simp [findChar, List.findIdx?_cons]

/-- The inclusive slice over the whole string is the string. -/
theorem sliceIncl_full (s : PyStr) (n : Nat) (h : s.length = n + 1) :
    sliceIncl s 0 n = s := by
  unfold sliceIncl
  rw [List.drop_zero]
  apply List.take_of_length_le
  omega

/-- A serialized object splits off its closing brace. -/
theorem serValue_jobj_decomp (ms : List (PyStr × JValue)) :
    serValue (JValue.jobj ms) = (123 :: serMembers ms) ++ [125] := by
  simp [serValue]

/-- A value parsed from an opening brace is an object. -/
theorem parseVal_obj_shape (fuel : Nat) (t : PyStr) (v : JValue) (r : PyStr)
    (h : parseVal fuel (123 :: t) = some (v, r)) :
    ∃ m, v = JValue.jobj m := by
  cases fuel with
  | zero => simp [parseVal] at h
  | succ f =>
    simp only [parseVal] at h
    cases hsk : skipWsJ t with
    | nil => rw [hsk] at h; simp at h
    | cons c2 r2 =>
      rw [hsk] at h
      dsimp only at h
      by_cases hc : c2 = 125
      · rw [if_pos hc] at h
        obtain ⟨rfl, rfl⟩ : JValue.jobj [] = v ∧ r2 = r := by
          injection h with h1
          injection h1 with ha hb
          exact ⟨ha, hb⟩
        exact ⟨[], rfl⟩
      · rw [if_neg hc] at h
        cases hpm : parseMembs f (c2 :: r2) with
        | none => rw [hpm] at h; simp at h
        | some p =>
          obtain ⟨ms, r3⟩ := p
          rw [hpm] at h
          dsimp only at h
          obtain ⟨rfl, rfl⟩ : JValue.jobj (buildDict ms) = v ∧ r3 = r := by
            injection h with h1
            injection h1 with ha hb
            exact ⟨ha, hb⟩
          exact ⟨buildDict ms, rfl⟩

/-- `json.loads` of a text that opens with a brace yields an object
when it succeeds. -/
theorem loads_obj_shape (w : PyStr) (v : JValue)
    (h : loads (123 :: w) = some v) : ∃ m, v = JValue.jobj m := by
  unfold loads at h
  rw [show skipWsJ ((123 : Nat) :: w) = 123 :: w from by
    simp [skipWsJ, jsonWs]] at h
  cases hpv : parseVal ((123 :: w).length + 1) (123 :: w) with
  | none => rw [hpv] at h; simp at h
  | some p =>
    obtain ⟨v0, r⟩ := p
    rw [hpv] at h
    dsimp only at h
    by_cases hr : (skipWsJ r).isEmpty
    · rw [if_pos hr] at h
      injection h with h
      subst h
      exact parseVal_obj_shape _ _ _ _ hpv
    · rw [if_neg hr] at h; simp at h

/-- The DOTALL brace regex, when it matches, captures a region opening
with a brace. -/
theorem braceSearch_head (s sub : PyStr) (h : braceSearch s = some sub) :
    ∃ u, sub = 123 :: u := by
  unfold braceSearch at h
  cases hj : rfindChar 125 s with
  | none => rw [hj] at h; simp at h
  | some j =>
    cases hi : findChar 123 s with
    | none => rw [hj, hi] at h; simp at h
    | some i =>
      rw [hj, hi] at h
      dsimp only at h
      by_cases hij : i ≤ j
      · rw [if_pos hij] at h
        obtain ⟨u, hu⟩ := findChar_drop 123 s i hi
        injection h with h
        subst h
        refine ⟨u.take (j - i), ?_⟩
        unfold sliceIncl
        rw [hu, show j + 1 - i = (j - i) + 1 from by omega]
        rfl
      · rw [if_neg hij] at h; simp at h

/-- A successful extraction yields an object: the sliced region opens
with a brace. -/
theorem extract_obj_shape (x : PyStr) (v : JValue)
    (h : extract_clean_json x = some v) : ∃ m, v = JValue.jobj m := by
  simp only [extract_clean_json] at h
  cases hi : findChar 123 (pyStrip (stripFenceAll x)) with
  | none => rw [hi] at h; simp at h
  | some i =>
    cases hj : rfindChar 125 (pyStrip (stripFenceAll x)) with
    | none => rw [hi, hj] at h; simp at h
    | some j =>
      rw [hi, hj] at h
      dsimp only at h
      obtain ⟨u, hu⟩ := findChar_drop 123 _ i hi
      unfold sliceIncl at h
      rw [hu] at h
      cases hk : j + 1 - i with
      | zero => rw [hk] at h; simp at h; cases h
      | succ n =>
        rw [hk] at h
        rw [List.take_succ_cons] at h
        exact loads_obj_shape _ _ h

/-- A ```` ``` ```` prefix is a backtick-run occurrence. -/
theorem fencePlain_contains (s : PyStr) (h : fencePlain s = true) :
    containsSub (pstr "```") s = true := by
  cases s with
  | nil => simp [fencePlain, List.isPrefixOf] at h
  | cons c t =>
    unfold fencePlain at h
    simp only [containsSub, findSub]
    rw [show pstr "```" = [96, 96, 96] from rfl, h]
    simp

/-- The case-insensitive ````json`` test subsumes the backtick test. -/
theorem fenceJson_plain (s : PyStr) (h : fenceJson s = true) :
    fencePlain s = true := by
  rcases s with _ | ⟨a, _ | ⟨b, _ | ⟨c, _ | ⟨d, _ | ⟨e, _ | ⟨f, _ | ⟨g, t⟩⟩⟩⟩⟩⟩⟩ <;>
    simp [fenceJson] at h
  obtain ⟨⟨⟨⟨⟨⟨ha, hb⟩, hc⟩, -⟩, -⟩, -⟩, -⟩ := h
  subst ha; subst hb; subst hc
  simp [fencePlain, List.isPrefixOf]

/-- No occurrence in a string means no occurrence in its tail. -/
theorem containsSub_cons_of_tail (pat : PyStr) (c : Nat) (t : PyStr)
    (h : containsSub pat (c :: t) = false) : containsSub pat t = false := by
  simp only [containsSub, findSub] at h ⊢
  by_cases hp : pat.isPrefixOf (c :: t)
  · rw [if_pos hp] at h; simp at h
  · rw [if_neg hp] at h
    cases hf : findSub pat t with
    | none => rfl
    | some i => simp [hf] at h

/-- The fence substitution leaves a backtick-free string unchanged. -/
theorem stripFence_noop : ∀ (fuel : Nat) (s : PyStr),
    containsSub (pstr "```") s = false → stripFence fuel s = s
  | 0, _, _ => rfl
  | _ + 1, [], _ => rfl
  | fuel + 1, c :: t, h => by
    have hfj : fenceJson (c :: t) = false := by
      by_cases hx : fenceJson (c :: t) = true
      · have hco := fencePlain_contains _ (fenceJson_plain _ hx)
        rw [hco] at h
        exact absurd h (by decide)
      · simpa using hx
    have hfp : fencePlain (c :: t) = false := by
      by_cases hx : fencePlain (c :: t) = true
      · have hco := fencePlain_contains _ hx
        rw [hco] at h
        exact absurd h (by decide)
      · simpa using hx
    unfold stripFence
    simp only [hfj, hfp, Bool.false_eq_true, if_false]
    rw [stripFence_noop fuel t (containsSub_cons_of_tail _ _ _ h)]

/-- The full substitution on a backtick-free string. -/
theorem stripFenceAll_noop (s : PyStr)
    (h : containsSub (pstr "```") s = false) : stripFenceAll s = s :=
  stripFence_noop s.length s h

/-- `str.strip()` leaves a string whose two ends are not whitespace
unchanged. -/
theorem pyStrip_noop (a b : Nat) (t : PyStr) (ha : pyWs a = false)
    (hb : pyWs b = false) : pyStrip (a :: (t ++ [b])) = a :: (t ++ [b]) := by
  unfold pyStrip
  rw [List.dropWhile_cons, ha]
  simp only [Bool.false_eq_true, if_false]
  rw [show (a :: (t ++ [b])).reverse = b :: (t.reverse ++ [a]) from by simp]
  rw [List.dropWhile_cons, hb]
  simp only [Bool.false_eq_true, if_false]
  simp

/-- Extraction recovers any well-formed object from its serialization,
provided the serialization has no backtick fence. -/
theorem extract_serValue_obj (m : List (PyStr × JValue))
    (hwf : wfVal (JValue.jobj m) = true)
    (ht : containsSub (pstr "```") (serValue (JValue.jobj m)) = false) :
    extract_clean_json (serValue (JValue.jobj m)) = some (JValue.jobj m) := by
  have hdec := serValue_jobj_decomp m
  have hsf := stripFenceAll_noop _ ht
  have hps : pyStrip (serValue (JValue.jobj m)) = serValue (JValue.jobj m) := by
    rw [show serValue (JValue.jobj m) = 123 :: (serMembers m ++ [125]) from by
      simp [serValue]]
    exact pyStrip_noop 123 125 _ (by rfl) (by rfl)
  have hfind : findChar 123 (serValue (JValue.jobj m)) = some 0 := by
    rw [show serValue (JValue.jobj m) = 123 :: (serMembers m ++ [125]) from by
      simp [serValue]]
    exact findChar_cons_self _ _
  have hrfind : rfindChar 125 (serValue (JValue.jobj m)) =
      some (123 :: serMembers m).length := by
    rw [hdec]
    exact rfindChar_append_last _ _
  simp only [extract_clean_json]
  rw [hsf, hps, hfind, hrfind]
  dsimp only
  rw [show sliceIncl (serValue (JValue.jobj m)) 0 (123 :: serMembers m).length =
      serValue (JValue.jobj m) from by
    apply sliceIncl_full
    rw [hdec]
    simp]
  exact loads_serValue _ hwf

/-- The brace regex over a serialized object matches the whole text. -/
theorem braceSearch_serValue_obj (m : List (PyStr × JValue)) :
    braceSearch (serValue (JValue.jobj m)) = some (serValue (JValue.jobj m)) := by
  have hdec := serValue_jobj_decomp m
  have hfind : findChar 123 (serValue (JValue.jobj m)) = some 0 := by
    rw [show serValue (JValue.jobj m) = 123 :: (serMembers m ++ [125]) from by
      simp [serValue]]
    exact findChar_cons_self _ _
  have hrfind : rfindChar 125 (serValue (JValue.jobj m)) =
      some (123 :: serMembers m).length := by
    rw [hdec]
    exact rfindChar_append_last _ _
  unfold braceSearch
  rw [hfind, hrfind]
  dsimp only
  rw [if_pos (by omega)]
  rw [show sliceIncl (serValue (JValue.jobj m)) 0 (123 :: serMembers m).length =
      serValue (JValue.jobj m) from by
    apply sliceIncl_full
    rw [hdec]
    simp]

/-- The safe parser recovers any well-formed refusal-free object from
its serialization. -/
theorem safe_serValue_obj (m : List (PyStr × JValue))
    (hwf : wfVal (JValue.jobj m) = true)
    (hr1 : containsSub refusalMark1 (serValue (JValue.jobj m)) = false)
    (hr2 : containsSub refusalMark2 (serValue (JValue.jobj m)) = false) :
    parse_json_safely (serValue (JValue.jobj m)) = JValue.jobj m := by
  have hne : (serValue (JValue.jobj m)).isEmpty = false := by
    rw [show serValue (JValue.jobj m) = 123 :: (serMembers m ++ [125]) from by
      simp [serValue]]
    rfl
  simp [parse_json_safely, hne, hr1, hr2, braceSearch_serValue_obj m,
    loads_serValue _ hwf]

/-- C3: the safe layer `parse_json_safely` is total and always returns
an object - empty text, refusal text, missing braces and malformed
content all map to fixed default objects, and when the input is
non-empty, refusal-free and has no brace-delimited region the result is
exactly the `failedDefault` object whose `coach_critique` field carries
the human-readable error message.  (The other extractor the claim
names, `extract_clean_json`, returns `None` in exactly those failure
cases - see the counterexample.) -/
theorem c3_parse_json_safely_always_object (text : PyStr) :
    (∃ m, parse_json_safely text = JValue.jobj m) ∧
    (text.isEmpty = false → containsSub refusalMark1 text = false →
      containsSub refusalMark2 text = false → braceSearch text = none →
      parse_json_safely text = failedDefault text) := by
  constructor
  · unfold parse_json_safely
    by_cases he : text.isEmpty
    · rw [if_pos he]; exact ⟨_, rfl⟩
    · rw [if_neg he]
      by_cases hr : (containsSub refusalMark1 text ||
          containsSub refusalMark2 text) = true
      · rw [if_pos hr]; exact ⟨_, rfl⟩
      · rw [if_neg hr]
        cases hb : braceSearch text with
        | none => exact ⟨_, rfl⟩
        | some sub =>
          obtain ⟨u, rfl⟩ := braceSearch_head _ _ hb
          cases hl : loads (123 :: u) with
          | none =>
            refine ⟨[(pstr "coach_critique",
                JValue.jstr (pstr "System Error: Invalid AI Response")),
              (pstr "rewritten_answer", JValue.jstr (text.take 500)),
              (pstr "score", JValue.jint 0),
              (pstr "improvements",
                JValue.jarr [JValue.jstr (pstr "System: Please try again.")])],
              ?_⟩
            dsimp only
            rw [hl]
            rfl
          | some v =>
            obtain ⟨m, rfl⟩ := loads_obj_shape _ _ hl
            refine ⟨m, ?_⟩
            dsimp only
            rw [hl]
  · intro he hr1 hr2 hb
    simp [parse_json_safely, he, hr1, hr2, hb]

/-- The failure branch of C3, exercised: a plain word has no braces, so
the safe parser returns the failed-default object. -/
theorem c3_parse_json_safely_always_object_witness :
    parse_json_safely (pstr "hello") = failedDefault (pstr "hello") :=
  (c3_parse_json_safely_always_object (pstr "hello")).2 rfl rfl rfl rfl

/-- The claim as frozen is false of `extract_clean_json`: on a
brace-free input it returns `None`, not a default object. -/
theorem c3_extract_clean_json_counterexample :
    extract_clean_json (pstr "hello") = none := rfl

/-- C7: extraction is idempotent on its own output up to markdown
fences - re-extracting the serialization of an extracted object
returns the same object whenever the object is well formed and its
serialization contains no triple backtick (the fence stripper of
`extract_clean_json` would otherwise rewrite the serialized text before
parsing, as the counterexample shows). -/
theorem c7_idempotent_unless_fenced (x : PyStr) (v : JValue)
    (h : extract_clean_json x = some v) (hwf : wfVal v = true)
    (ht : containsSub (pstr "```") (serValue v) = false) :
    extract_clean_json (serValue v) = some v := by
  obtain ⟨m, rfl⟩ := extract_obj_shape x v h
  exact extract_serValue_obj m hwf ht

/-- The idempotence theorem at a concrete input. -/
theorem c7_idempotent_unless_fenced_witness :
    extract_clean_json
        (serValue (JValue.jobj [(pstr "a", JValue.jstr (pstr "b"))])) =
      some (JValue.jobj [(pstr "a", JValue.jstr (pstr "b"))]) :=
  c7_idempotent_unless_fenced (pstr "\x7b\"a\": \"b\"\x7d")
    (JValue.jobj [(pstr "a", JValue.jstr (pstr "b"))]) rfl rfl rfl

/-- The claim as frozen is false: a value whose string content spells
three backticks round-trips to a different value, because the dumped
backticks are re-stripped as a markdown fence before re-parsing. -/
theorem c7_backtick_counterexample :
    extract_clean_json (pstr "\x7b\"a\": \"\\u0060\\u0060\\u0060\"\x7d") =
      some (JValue.jobj [(pstr "a", JValue.jstr [96, 96, 96])]) ∧
    extract_clean_json
        (serValue (JValue.jobj [(pstr "a", JValue.jstr [96, 96, 96])])) =
      some (JValue.jobj [(pstr "a", JValue.jstr [])]) ∧
    JValue.jobj [(pstr "a", JValue.jstr [96, 96, 96])] ≠
      JValue.jobj [(pstr "a", JValue.jstr [])] := by
  refine ⟨rfl, rfl, ?_⟩
  intro h
  simp at h

set_option maxRecDepth 4000 in
/-- C10: for every operation name and any inputs, the static fallback
text parses under both extractors into one and the same object, which
carries the keys the downstream caller destructures: `matched_skills`
and `missing_skills` for the Skill Matcher operation, `coach_critique`
and `rewritten_answer` for every other name. -/
theorem c10_static_fallback_parses (name : PyStr)
    (inputs : List (PyStr × PyStr)) :
    ∃ m, extract_clean_json (get_static_fallback name inputs) =
        some (JValue.jobj m) ∧
      parse_json_safely (get_static_fallback name inputs) = JValue.jobj m ∧
      hasKey m (if name = pstr "Skill Matcher" then pstr "matched_skills"
        else pstr "coach_critique") = true ∧
      hasKey m (if name = pstr "Skill Matcher" then pstr "missing_skills"
        else pstr "rewritten_answer") = true := by
  unfold get_static_fallback
  by_cases hn : name = pstr "Skill Matcher"
  · simp only [if_pos hn]
    exact ⟨_, extract_serValue_obj _ rfl rfl,
      safe_serValue_obj _ rfl rfl rfl, rfl, rfl⟩
  · simp only [if_neg hn]
    exact ⟨_, extract_serValue_obj _ rfl rfl,
      safe_serValue_obj _ rfl rfl rfl, rfl, rfl⟩


end PolyPro
